import Mathlib

/-!
Shallow embedding of the symbolserver memdb stash (`src/memdb/stash.rs`).

The stash reconciles a local cache of memdb files against a remote catalog.
Pure data (identities, catalog entries, sync state) is translated directly;
the stash's effects (the durable `sync.state` file, the cached state
snapshot, the memdb files on disk and the handle cache) are modelled as an
explicit `World` record threaded through each operation, and the S3
collaborator is modelled as per-call oracles (the listing result and the
per-SDK fetch outcome).  Machine integers (`u64` sizes and revisions, `u32`
counters) are modelled as `Nat`; wraparound after `2^64` revision bumps is
not modelled.
-/

/-- Modelled from the spec: `SdkInfo` (defined in `sdk.rs`, which is not part
of the provided sources) is the canonical identity of a symbol database — a
name/version/build-like key that is totally ordered, hashable and
filename-mappable.  The fields are modelled as numbers; the total order is
lexicographic on the fields. -/
structure SdkInfo where
  name : Nat
  version : Nat
  build : Nat
deriving DecidableEq, Repr

/-- Total order on identities (Rust `Ord` on `SdkInfo`), lexicographic on the
fields, as a boolean predicate. -/
def SdkInfo.le (a b : SdkInfo) : Bool :=
  decide (a.name < b.name) ||
    (decide (a.name = b.name) &&
      (decide (a.version < b.version) ||
        (decide (a.version = b.version) && decide (a.build ≤ b.build))))

/-- Strict version of the order; in the total order `a < b ↔ ¬ (b ≤ a)`. -/
def SdkInfo.lt (a b : SdkInfo) : Bool :=
  !(SdkInfo.le b a)

theorem SdkInfo.le_iff (a b : SdkInfo) :
    SdkInfo.le a b = true ↔
      a.name < b.name ∨ (a.name = b.name ∧
        (a.version < b.version ∨ (a.version = b.version ∧ a.build ≤ b.build))) := by
  simp [SdkInfo.le]

theorem SdkInfo.ext_iff' (a b : SdkInfo) :
    a = b ↔ a.name = b.name ∧ a.version = b.version ∧ a.build = b.build := by
  cases a; cases b; simp

theorem SdkInfo.le_refl (a : SdkInfo) : SdkInfo.le a a = true := by
  simp [SdkInfo.le_iff]

theorem SdkInfo.le_trans {a b c : SdkInfo} (hab : SdkInfo.le a b = true)
    (hbc : SdkInfo.le b c = true) : SdkInfo.le a c = true := by
  rw [SdkInfo.le_iff] at hab hbc ⊢
  rcases hab with h | ⟨h1, h⟩ <;> rcases hbc with h' | ⟨h1', h'⟩ <;>
    first
      | (left; omega)
      | (rcases h with h2 | ⟨h2, h3⟩ <;> rcases h' with h2' | ⟨h2', h3'⟩ <;>
          (right; constructor; omega; omega))

theorem SdkInfo.le_antisymm {a b : SdkInfo} (hab : SdkInfo.le a b = true)
    (hba : SdkInfo.le b a = true) : a = b := by
  rw [SdkInfo.le_iff] at hab hba
  rw [SdkInfo.ext_iff']
  omega

theorem SdkInfo.le_total (a b : SdkInfo) :
    SdkInfo.le a b = true ∨ SdkInfo.le b a = true := by
  rw [SdkInfo.le_iff, SdkInfo.le_iff]
  omega

theorem SdkInfo.lt_iff (a b : SdkInfo) :
    SdkInfo.lt a b = true ↔ ¬ SdkInfo.le b a = true := by
  simp [SdkInfo.lt]

/-- Canonical memdb filename for an identity (Rust `SdkInfo::memdb_filename`).
Modelled from the spec: the filename is derived deterministically and
injectively from the identity and is convertible back; the concrete encoding
(unary runs of marker characters separated by dashes) is a model choice. -/
def SdkInfo.memdb_filename (i : SdkInfo) : String :=
  ⟨List.replicate i.name 'x' ++
    ('-' :: (List.replicate i.version 'y' ++
      ('-' :: (List.replicate i.build 'z' ++ ".memdb".data))))⟩

theorem SdkInfo.count_filename_x (i : SdkInfo) :
    i.memdb_filename.data.count 'x' = i.name := by
  simp [SdkInfo.memdb_filename, List.count_append, List.count_replicate,
    List.count_cons]

theorem SdkInfo.count_filename_y (i : SdkInfo) :
    i.memdb_filename.data.count 'y' = i.version := by
  simp [SdkInfo.memdb_filename, List.count_append, List.count_replicate,
    List.count_cons]

theorem SdkInfo.count_filename_z (i : SdkInfo) :
    i.memdb_filename.data.count 'z' = i.build := by
  simp [SdkInfo.memdb_filename, List.count_append, List.count_replicate,
    List.count_cons]

/-- Parse a canonical identifier string back into an identity (Rust
`SdkInfo::from_filename`, `sdk.rs`, modelled from the spec).  Returns `none`
on any string that is not a canonical identifier. -/
def SdkInfo.from_filename (s : String) : Option SdkInfo :=
  let i : SdkInfo := ⟨s.data.count 'x', s.data.count 'y', s.data.count 'z'⟩
  if s = i.memdb_filename then some i else none

theorem SdkInfo.from_filename_memdb_filename (i : SdkInfo) :
    SdkInfo.from_filename i.memdb_filename = some i := by
  unfold SdkInfo.from_filename
  simp [SdkInfo.count_filename_x, SdkInfo.count_filename_y,
    SdkInfo.count_filename_z]

theorem SdkInfo.memdb_filename_injective :
    Function.Injective SdkInfo.memdb_filename := by
  intro a b h
  have ha := SdkInfo.from_filename_memdb_filename a
  have hb := SdkInfo.from_filename_memdb_filename b
  rw [h] at ha
  rw [ha] at hb
  exact (Option.some.injEq _ _).mp hb

/-- Canonical string form of the identity used for ignore-pattern matching
(Rust `SdkInfo::sdk_id`, modelled from the spec); modelled as the canonical
filename (the concrete textual form is irrelevant here because the
ignore-pattern matcher is abstract). -/
def SdkInfo.sdk_id (i : SdkInfo) : String :=
  i.memdb_filename

/-- Association-list model of Rust's `HashMap`: lookup by key. -/
def assocGet {α β : Type} [DecidableEq α] (m : List (α × β)) (k : α) : Option β :=
  (m.find? (fun p => decide (p.1 = k))).map (fun p => p.2)

/-- Association-list model of `HashMap::insert`: replaces any entry with the
same key. -/
def assocInsert {α β : Type} [DecidableEq α] (k : α) (v : β) (m : List (α × β)) :
    List (α × β) :=
  (k, v) :: m.filter (fun p => decide (p.1 ≠ k))

/-- Association-list model of `HashMap::remove` (and of `fs::remove_file`
tolerating an absent file: removing an absent key is a no-op). -/
def assocRemove {α β : Type} [DecidableEq α] (k : α) (m : List (α × β)) :
    List (α × β) :=
  m.filter (fun p => decide (p.1 ≠ k))

theorem assocGet_nil {α β : Type} [DecidableEq α] (k : α) :
    assocGet ([] : List (α × β)) k = none := rfl

theorem assocGet_cons {α β : Type} [DecidableEq α] (k : α) (p : α × β)
    (m : List (α × β)) :
    assocGet (p :: m) k = if p.1 = k then some p.2 else assocGet m k := by
  by_cases h : p.1 = k <;> simp [assocGet, List.find?_cons, h]

theorem assocGet_insert_self {α β : Type} [DecidableEq α] (k : α) (v : β)
    (m : List (α × β)) : assocGet (assocInsert k v m) k = some v := by
  simp [assocInsert, assocGet_cons]

theorem assocGet_filter {α β : Type} [DecidableEq α] (k : α)
    (q : α × β → Bool) (m : List (α × β)) (hq : ∀ v : β, q (k, v) = true) :
    assocGet (m.filter q) k = assocGet m k := by
  induction m with
  | nil => rfl
  | cons p m ih =>
    rw [List.filter_cons]
    by_cases hk : p.1 = k
    · obtain ⟨p1, p2⟩ := p
      cases hk
      rw [hq p2]
      simp only [if_true]
      rw [assocGet_cons, assocGet_cons]
      simp
    · cases hqp : q p
      · simp only [Bool.false_eq_true, if_false]
        rw [ih, assocGet_cons, if_neg hk]
      · simp only [if_true]
        rw [assocGet_cons, assocGet_cons, if_neg hk, if_neg hk, ih]

theorem assocGet_insert_other {α β : Type} [DecidableEq α] (k k' : α) (v : β)
    (m : List (α × β)) (h : k ≠ k') :
    assocGet (assocInsert k v m) k' = assocGet m k' := by
  rw [assocInsert, assocGet_cons, if_neg h]
  exact assocGet_filter k' _ m (by intro v'; simp; exact fun h' => h h'.symm)

theorem assocGet_remove_self {α β : Type} [DecidableEq α] (k : α)
    (m : List (α × β)) : assocGet (assocRemove k m) k = none := by
  rw [assocRemove]
  induction m with
  | nil => rfl
  | cons p m ih =>
    rw [List.filter_cons]
    by_cases h : p.1 = k
    · simp only [h, ne_eq, not_true_eq_false, decide_false_eq_false,
        Bool.false_eq_true, if_false]
      exact ih
    · simp only [h, ne_eq, not_false_eq_true, decide_true_eq_true, if_true]
      rw [assocGet_cons, if_neg h]
      exact ih

theorem assocGet_remove_other {α β : Type} [DecidableEq α] (k k' : α)
    (m : List (α × β)) (h : k ≠ k') :
    assocGet (assocRemove k m) k' = assocGet m k' := by
  rw [assocRemove]
  exact assocGet_filter k' _ m (by intro v'; simp; exact fun h' => h h'.symm)

theorem assocGet_isSome_iff_mem_keys {α β : Type} [DecidableEq α]
    (m : List (α × β)) (k : α) :
    (assocGet m k).isSome = true ↔ k ∈ m.map (fun p => p.1) := by
  induction m with
  | nil => simp [assocGet]
  | cons p m ih =>
    rw [assocGet_cons]
    by_cases h : p.1 = k
    · simp [h]
    · simp only [h, if_false, List.map_cons, List.mem_cons, ih]
      constructor
      · exact fun hh => Or.inr hh
      · rintro (hh | hh)
        · exact absurd hh.symm h
        · exact hh

theorem assocGet_eq_some_of_mem {α β : Type} [DecidableEq α]
    (m : List (α × β)) (k : α) (v : β)
    (hnd : (m.map (fun p => p.1)).Nodup) (hmem : (k, v) ∈ m) :
    assocGet m k = some v := by
  induction m with
  | nil => simp at hmem
  | cons p m ih =>
    rw [List.map_cons, List.nodup_cons] at hnd
    rw [assocGet_cons]
    rcases List.mem_cons.mp hmem with h | h
    · subst h; simp
    · by_cases hk : p.1 = k
      · exfalso
        apply hnd.1
        rw [hk]
        exact List.mem_map.mpr ⟨(k, v), h, rfl⟩
      · rw [if_neg hk]
        exact ih hnd.2 h

theorem mem_of_assocGet_eq_some {α β : Type} [DecidableEq α]
    (m : List (α × β)) (k : α) (v : β) (h : assocGet m k = some v) :
    (k, v) ∈ m := by
  induction m with
  | nil => simp [assocGet] at h
  | cons p m ih =>
    rw [assocGet_cons] at h
    by_cases hk : p.1 = k
    · rw [if_pos hk] at h
      obtain ⟨p1, p2⟩ := p
      cases hk
      cases h
      exact List.mem_cons_self _ _
    · rw [if_neg hk] at h
      exact List.mem_cons_of_mem _ (ih h)

/-- Information about a remotely available SDK (Rust `RemoteSdk`,
`stash.rs:42-48`): canonical filename, identity, byte size, content
fingerprint.  Compared by structural equality, including the etag. -/
structure RemoteSdk where
  filename : String
  info : SdkInfo
  size : Nat
  etag : String
deriving DecidableEq, Repr

/-- Durable record of what the local cache holds (Rust `SdkSyncState`,
`stash.rs:50-54`): a map from canonical filename to remote-catalog snapshot
plus an optional revision counter.  The `HashMap` is modelled as an
association list. -/
structure SdkSyncState where
  sdks : List (String × RemoteSdk)
  revision : Option Nat
deriving DecidableEq, Repr

instance : Inhabited SdkSyncState := ⟨{ sdks := [], revision := none }⟩

/-- Rust `SdkSyncState::get_sdk` (`stash.rs:97-99`). -/
def SdkSyncState.get_sdk (s : SdkSyncState) (info : SdkInfo) : Option RemoteSdk :=
  assocGet s.sdks info.memdb_filename

/-- Rust `SdkSyncState::update_sdk` (`stash.rs:101-103`): insert keyed by the
canonical filename of the value's identity. -/
def SdkSyncState.update_sdk (s : SdkSyncState) (sdk : RemoteSdk) : SdkSyncState :=
  { s with sdks := assocInsert sdk.info.memdb_filename sdk s.sdks }

/-- Rust `SdkSyncState::remove_sdk` (`stash.rs:105-107`). -/
def SdkSyncState.remove_sdk (s : SdkSyncState) (info : SdkInfo) : SdkSyncState :=
  { s with sdks := assocRemove info.memdb_filename s.sdks }

/-- Rust `SdkSyncState::sdk_count` (`stash.rs:113-115`). -/
def SdkSyncState.sdk_count (s : SdkSyncState) : Nat :=
  s.sdks.length

/-- Health snapshot of the stash sync (Rust `SyncStatus`, `stash.rs:57-64`). -/
structure SyncStatus where
  remote_total : Nat
  missing : Nat
  different : Nat
  revision : Nat
  offline : Bool
deriving DecidableEq, Repr

/-- Rust `SyncStatus::lag` (`stash.rs:126-128`). -/
def SyncStatus.lag (s : SyncStatus) : Nat :=
  s.missing + s.different

/-- Rust `SyncStatus::is_healthy` (`stash.rs:131-139`): offline is healthy,
otherwise healthy iff `lag / total < 0.10`.  The source computes the ratio in
`f32`; it is modelled as an exact rational comparison, with the
`remote_total = 0` branch made explicit because in `f32` a zero denominator
yields NaN (or +inf when `lag > 0`), and either compares false against
`0.10`.  No claim exercises the inexactness of the `f32` ratio away from
zero. -/
def SyncStatus.is_healthy (s : SyncStatus) : Bool :=
  if s.offline then true
  else if s.remote_total = 0 then false
  else decide ((s.lag : ℚ) / (s.remote_total : ℚ) < 1 / 10)

/-- Ignore-pattern matcher (Rust `IgnorePatterns` from `utils.rs`, which is
not part of the provided sources).  Modelled from the spec: a configured
matcher tested against an identity's canonical string form; the glob syntax
is abstracted into an opaque boolean match function. -/
structure IgnorePatterns where
  is_match : String → Bool

/-- Sync options (Rust `SyncOptions`, `stash.rs:28-30`); `user_facing` only
selects progress reporting and has no effect on the algorithm. -/
structure SyncOptions where
  user_facing : Bool

/-- The configuration-derived, call-independent parts of `MemDbStash`
(`stash.rs:33-39`): the ignore patterns, plus the external fuzzy-distance
algorithm of `SdkInfo` (Rust `SdkInfo::get_fuzzy_match` from `sdk.rs`, not in
the provided sources; modelled from the spec as an abstract function
returning a quality score, lower is better, or no match). -/
structure StashConfig where
  ignore_patterns : IgnorePatterns
  get_fuzzy_match : SdkInfo → SdkInfo → Option Nat

/-- Rust `MemDbStash::sdk_is_ignored` (`stash.rs:327-329`). -/
def StashConfig.sdk_is_ignored (cfg : StashConfig) (info : SdkInfo) : Bool :=
  cfg.ignore_patterns.is_match info.sdk_id

/-- Opaque handle onto an opened memdb database (Rust `MemDb` from `read.rs`,
not in the provided sources).  Modelled from the spec as a handle recording
the file content it was constructed from. -/
structure MemDb where
  data : Nat
deriving DecidableEq, Repr

/-- Error conditions surfaced by the stash (the relevant variants of the
crate's `ErrorKind`). -/
inductive StashErr where
  | s3Unavailable
  | s3Other
  | io
  | unknownSdk
  | memdbOpen
  | panicUnwrap
deriving DecidableEq, Repr

/-- Result of the remote catalog `list` call (Rust
`S3Server::list_upstream_sdks`): the entries, or a distinguished
"unavailable" condition versus any other failure. -/
inductive ListingResult where
  | ok (entries : List RemoteSdk)
  | unavailable
  | otherErr
deriving Repr

/-- Per-SDK outcome of one download-and-decompress attempt, the oracle input
to `MemDbStash::update_sdk` (`stash.rs:223-247`): the download itself can
fail (before the destination file is created), the decompress-and-copy can
fail after `File::create` truncated the destination (leaving partial
content), or the whole copy succeeds with the decompressed content. -/
inductive FetchOutcome where
  | downloadUnavailable
  | downloadErr
  | copyErr (part : Nat)
  | ok (data : Nat)
deriving DecidableEq, Repr

/-- The mutable surroundings of the stash: the durable state file, the
in-memory cached state snapshot (the `local_state` lock), the memdb files on
disk under the stash path, and the handle cache (the `memdbs` lock). -/
structure World where
  stateFile : Option SdkSyncState
  cachedState : Option SdkSyncState
  fs : List (String × Nat)
  memdbs : List (SdkInfo × MemDb)
deriving DecidableEq, Repr

/-- Rust `MemDbStash::read_local_state` (`stash.rs:183-198`): read the durable
state file (absence yields the fresh default state) and cache it as the
current snapshot.  A parse error on an existing file (a hard `CorruptState`
error in the source) is outside this model: `stateFile` already holds parsed
state. -/
def read_local_state (w : World) : SdkSyncState × World :=
  let rv := w.stateFile.getD default
  (rv, { w with cachedState := some rv })

/-- Rust `MemDbStash::get_local_state` (`stash.rs:200-206`): the cached
snapshot if present, otherwise a fresh read. -/
def get_local_state (w : World) : SdkSyncState × World :=
  match w.cachedState with
  | some s => (s, w)
  | none => read_local_state w

/-- Rust `MemDbStash::save_local_state` (`stash.rs:208-213`): persist the new
state (write-to-temp-then-atomic-rename collapses to one atomic replacement
in this sequential model) and replace the cached snapshot. -/
def save_local_state (s : SdkSyncState) (w : World) : World :=
  { w with stateFile := some s, cachedState := some s }

/-- Rust `MemDbStash::fetch_remote_state` (`stash.rs:215-221`): build a state
from the remote listing, keyed by each entry's canonical filename, with no
revision. -/
def fetch_remote_state (entries : List RemoteSdk) : SdkSyncState :=
  { sdks := entries.foldl
      (fun m sdk => assocInsert sdk.info.memdb_filename sdk m) []
    revision := none }

/-- Rust `MemDbStash::update_sdk` (`stash.rs:223-247`): download the SDK,
create the destination file (truncating any previous content), and decompress
the stream into it.  Progress reporting is elided.  Returns the world and the
error, if any; on a copy failure the destination file holds the partial
content, because `File::create` ran before the copy. -/
def MemDbStash.update_sdk (fetch : RemoteSdk → FetchOutcome) (sdk : RemoteSdk)
    (w : World) : World × Option StashErr :=
  match fetch sdk with
  | .downloadUnavailable => (w, some .s3Unavailable)
  | .downloadErr => (w, some .s3Other)
  | .copyErr part =>
      ({ w with fs := assocInsert sdk.info.memdb_filename part w.fs }, some .io)
  | .ok data =>
      ({ w with fs := assocInsert sdk.info.memdb_filename data w.fs }, none)

/-- Rust `MemDbStash::remove_sdk` (`stash.rs:249-261`): delete the SDK's file
from disk, tolerating "file already absent" as success (removing an absent
key from the model filesystem is a no-op). -/
def MemDbStash.remove_sdk (sdk : RemoteSdk) (w : World) : World :=
  { w with fs := assocRemove sdk.info.memdb_filename w.fs }

/-- One iteration of the classification loop of
`MemDbStash::get_sync_status` (`stash.rs:294-306`): skip ignored entries;
otherwise classify the remote entry as different, matching, or missing, and
count it in the remote total.  Accumulator is
`(remote_total, missing, different)`. -/
def statusStep (cfg : StashConfig) (local_state : SdkSyncState)
    (acc : Nat × Nat × Nat) (p : String × RemoteSdk) : Nat × Nat × Nat :=
  if cfg.sdk_is_ignored p.2.info then acc
  else
    match local_state.get_sdk p.2.info with
    | some local_sdk =>
        if local_sdk ≠ p.2 then (acc.1 + 1, acc.2.1, acc.2.2 + 1)
        else (acc.1 + 1, acc.2.1, acc.2.2)
    | none => (acc.1 + 1, acc.2.1 + 1, acc.2.2)

/-- Rust `MemDbStash::get_sync_status` (`stash.rs:284-324`): read the local
state, fetch the remote state, and count non-ignored remote entries as
missing or different; an "unavailable" remote converts into an offline status
with zero counts instead of an error, while any other remote failure
propagates. -/
def MemDbStash.get_sync_status (cfg : StashConfig) (listing : ListingResult)
    (w : World) : World × Except StashErr SyncStatus :=
  let p := read_local_state w
  let local_state := p.1
  let w := p.2
  match listing with
  | .ok entries =>
      let remote_state := fetch_remote_state entries
      let counts := remote_state.sdks.foldl (statusStep cfg local_state) (0, 0, 0)
      (w, .ok { remote_total := counts.1, missing := counts.2.1,
                different := counts.2.2,
                revision := local_state.revision.getD 0, offline := false })
  | .unavailable =>
      (w, .ok { remote_total := 0, missing := 0, different := 0,
                revision := local_state.revision.getD 0, offline := true })
  | .otherErr => (w, .error .s3Other)

/-- Per-identity outcome reported by one sync run (the source reports these
through progress output and logging: updated, unchanged, or ignored). -/
inductive SdkOutcome where
  | updated
  | unchanged
  | ignored
deriving DecidableEq, Repr

/-- The body of the remote-identity loop of `MemDbStash::sync`
(`stash.rs:343-376`), processing the sorted identity list in order and
threading the working local state, the `to_delete` set (modelled as a list
with set semantics), the world, and the per-identity outcome report.  A
changed identity is fetched, its cached handle evicted (only in the
changed-existing branch), the working state updated, the revision bumped and
the state persisted before the next identity; failures abort with the world
as it stands.  `to_delete` loses the identity in every branch, including the
ignored one, mirroring the `to_delete.remove` placed after the if/else in the
source.  The `.unwrap()` on the remote map lookup is modelled as a
`panicUnwrap` error. -/
def syncLoop (cfg : StashConfig) (fetch : RemoteSdk → FetchOutcome)
    (remote_state : SdkSyncState) :
    List SdkInfo → SdkSyncState → List SdkInfo → World →
    List (SdkInfo × SdkOutcome) →
    (SdkSyncState × List SdkInfo × World × List (SdkInfo × SdkOutcome)) ×
      Option StashErr
  | [], local_state, to_delete, w, report =>
      ((local_state, to_delete, w, report), none)
  | info :: rest, local_state, to_delete, w, report =>
    if cfg.sdk_is_ignored info then
      syncLoop cfg fetch remote_state rest local_state
        (to_delete.filter (fun x => decide (x ≠ info))) w
        (report ++ [(info, .ignored)])
    else
      match remote_state.get_sdk info with
      | none => ((local_state, to_delete, w, report), some .panicUnwrap)
      | some sdk =>
        match local_state.get_sdk info with
        | some local_sdk =>
          if local_sdk ≠ sdk then
            match MemDbStash.update_sdk fetch sdk w with
            | (w', some e) => ((local_state, to_delete, w', report), some e)
            | (w', none) =>
                let w' := { w' with memdbs := assocRemove info w'.memdbs }
                let ls := local_state.update_sdk sdk
                let ls := { ls with revision := some (ls.revision.getD 0 + 1) }
                let w' := save_local_state ls w'
                syncLoop cfg fetch remote_state rest ls
                  (to_delete.filter (fun x => decide (x ≠ info))) w'
                  (report ++ [(info, .updated)])
          else
            syncLoop cfg fetch remote_state rest local_state
              (to_delete.filter (fun x => decide (x ≠ info))) w
              (report ++ [(info, .unchanged)])
        | none =>
          match MemDbStash.update_sdk fetch sdk w with
          | (w', some e) => ((local_state, to_delete, w', report), some e)
          | (w', none) =>
              let ls := local_state.update_sdk sdk
              let ls := { ls with revision := some (ls.revision.getD 0 + 1) }
              let w' := save_local_state ls w'
              syncLoop cfg fetch remote_state rest ls
                (to_delete.filter (fun x => decide (x ≠ info))) w'
                (report ++ [(info, .updated)])

/-- The stale-identity pass of `MemDbStash::sync` (`stash.rs:378-384`),
translated exactly as written: each leftover identity is first removed from
the working state, and only then is the state consulted for its entry to
drive the file deletion and handle eviction. -/
def deleteLoop : List SdkInfo → SdkSyncState → World → SdkSyncState × World
  | [], local_state, w => (local_state, w)
  | info :: rest, local_state, w =>
    let ls := local_state.remove_sdk info
    match ls.get_sdk info with
    | some sdk =>
        let w := MemDbStash.remove_sdk sdk w
        let w := { w with memdbs := assocRemove sdk.info w.memdbs }
        deleteLoop rest ls w
    | none => deleteLoop rest ls w

/-- Rust `MemDbStash::sync` (`stash.rs:332-398`): read the local state, fetch
the remote catalog (an unavailable remote fails the whole sync), seed
`to_delete` with every local identity, process the remote identities in
descending identity order (Rust's stable `sort_by` is modelled by insertion
sort, which is also stable), run the stale-identity pass, then unconditionally
bump the revision once more and persist.  Returns the per-identity outcome
report on success. -/
def MemDbStash.sync (cfg : StashConfig) (listing : ListingResult)
    (fetch : RemoteSdk → FetchOutcome) (w : World) :
    World × Except StashErr (List (SdkInfo × SdkOutcome)) :=
  let p := read_local_state w
  let local_state := p.1
  let w := p.2
  match listing with
  | .unavailable => (w, .error .s3Unavailable)
  | .otherErr => (w, .error .s3Other)
  | .ok entries =>
    let remote_state := fetch_remote_state entries
    let to_delete : List SdkInfo := local_state.sdks.map (fun q => q.2.info)
    let sdks : List SdkInfo :=
      (remote_state.sdks.map (fun q => q.2.info)).insertionSort
        (fun a b => SdkInfo.le b a = true)
    match syncLoop cfg fetch remote_state sdks local_state to_delete w [] with
    | ((_, _, w', _), some e) => (w', .error e)
    | ((ls, td, w', report), none) =>
        let q := deleteLoop td ls w'
        let ls := q.1
        let w' := q.2
        let ls := { ls with revision := some (ls.revision.getD 0 + 1) }
        (save_local_state ls w', .ok report)

/-- Rust `MemDbStash::get_revision` (`stash.rs:264-266`). -/
def MemDbStash.get_revision (w : World) : Nat × World :=
  let p := read_local_state w
  (p.1.revision.getD 0, p.2)

/-- Rust `MemDbStash::sdk_count` (`stash.rs:269-271`). -/
def MemDbStash.sdk_count (w : World) : Nat × World :=
  let p := get_local_state w
  (p.1.sdk_count, p.2)

/-- Rust `MemDbStash::list_sdks` (`stash.rs:274-281`): all locally synced
identities, sorted ascending. -/
def MemDbStash.list_sdks (w : World) : List SdkInfo × World :=
  let p := get_local_state w
  ((p.1.sdks.map (fun q => q.2.info)).insertionSort
      (fun a b => SdkInfo.le a b = true), p.2)

/-- Rust `MemDbStash::get_memdb` (`stash.rs:405-427`): return the cached
handle if present; otherwise consult the local state (cached-snapshot fast
path), and only if the identity is known open the file, insert the handle
into the cache and return it; otherwise fail with `UnknownSdk`.  Opening a
file records its content in the handle; opening an absent file fails. -/
def MemDbStash.get_memdb (info : SdkInfo) (w : World) :
    World × Except StashErr MemDb :=
  match assocGet w.memdbs info with
  | some arc => (w, .ok arc)
  | none =>
    let p := get_local_state w
    let local_state := p.1
    let w := p.2
    if (local_state.get_sdk info).isSome then
      match assocGet w.fs info.memdb_filename with
      | none => (w, .error .memdbOpen)
      | some d =>
          let w := { w with memdbs := assocInsert info ⟨d⟩ w.memdbs }
          match assocGet w.memdbs info with
          | some arc => (w, .ok arc)
          | none => (w, .error .unknownSdk)
    else (w, .error .unknownSdk)

/-- Rust `MemDbStash::get_memdb_from_sdk_id` (`stash.rs:430-436`). -/
def MemDbStash.get_memdb_from_sdk_id (sdk_id : String) (w : World) :
    World × Except StashErr MemDb :=
  match SdkInfo.from_filename sdk_id with
  | some info => MemDbStash.get_memdb info w
  | none => (w, .error .unknownSdk)

/-- The scored pair pushed for one known identity by
`MemDbStash::fuzzy_match_sdk_id` (`stash.rs:445-448`): the fuzzy score with
"no match" normalized to the large sentinel `99999`, paired with the
identity. -/
def fuzzyScored (cfg : StashConfig) (target info : SdkInfo) : Nat × SdkInfo :=
  ((cfg.get_fuzzy_match info target).getD 99999, info)

/-- The ascending order on scored pairs used by the `sort_by_key` call of
`MemDbStash::fuzzy_match_sdk_id` (`stash.rs:450`): lexicographic on
`(score, candidate > target, Rev candidate)`, where `Bool` orders
`false < true` and `Rev` reverses the identity order. -/
def fuzzySortKeyLe (target : SdkInfo) (a b : Nat × SdkInfo) : Bool :=
  decide (a.1 < b.1) ||
    (decide (a.1 = b.1) &&
      ((!(SdkInfo.lt target a.2) && SdkInfo.lt target b.2) ||
        ((SdkInfo.lt target a.2 == SdkInfo.lt target b.2) &&
          SdkInfo.le b.2 a.2)))

/-- Rust `MemDbStash::fuzzy_match_sdk_id` (`stash.rs:439-454`): if the text
parses as an identity, score every known identity, sort ascending by
`(score, candidate > target, Rev candidate)` and return at most the top 10
matches; unparsable text yields an empty result.  Rust's stable
`sort_by_key` is modelled by insertion sort. -/
def MemDbStash.fuzzy_match_sdk_id (cfg : StashConfig) (sdk_id : String)
    (w : World) : World × Except StashErr (List SdkInfo) :=
  let p := get_local_state w
  let local_state := p.1
  let w := p.2
  match SdkInfo.from_filename sdk_id with
  | some sdk_info =>
      let rv := local_state.sdks.map (fun q => fuzzyScored cfg sdk_info q.2.info)
      let rv := rv.insertionSort (fun a b => fuzzySortKeyLe sdk_info a b = true)
      (w, .ok ((rv.take 10).map (fun q => q.2)))
  | none => (w, .ok [])

instance {ε α : Type} [DecidableEq ε] [DecidableEq α] : DecidableEq (Except ε α)
  | .ok a, .ok b => decidable_of_iff (a = b) (by simp)
  | .ok _, .error _ => isFalse (by simp)
  | .error _, .ok _ => isFalse (by simp)
  | .error a, .error b => decidable_of_iff (a = b) (by simp)

/-- The documented invariant of `SdkSyncState` (spec §3): every key of the
`sdks` map is the canonical memdb filename derived from the stored value's
identity. -/
def stateKeyInv (s : SdkSyncState) : Prop :=
  ∀ p ∈ s.sdks, p.1 = p.2.info.memdb_filename

/-- Keys of an association list are pairwise distinct. -/
def keysNodup {α β : Type} [DecidableEq α] (m : List (α × β)) : Prop :=
  (m.map (fun p => p.1)).Nodup

theorem mem_assocInsert {α β : Type} [DecidableEq α] {k : α} {v : β}
    {m : List (α × β)} {p : α × β} (h : p ∈ assocInsert k v m) :
    p = (k, v) ∨ p ∈ m := by
  rcases List.mem_cons.mp h with h | h
  · exact Or.inl h
  · exact Or.inr (List.mem_of_mem_filter h)

theorem mem_assocRemove {α β : Type} [DecidableEq α] {k : α}
    {m : List (α × β)} {p : α × β} (h : p ∈ assocRemove k m) : p ∈ m :=
  List.mem_of_mem_filter h

theorem keysNodup_assocInsert {α β : Type} [DecidableEq α] (k : α) (v : β)
    {m : List (α × β)} (h : keysNodup m) : keysNodup (assocInsert k v m) := by
  unfold keysNodup assocInsert
  rw [List.map_cons, List.nodup_cons]
  constructor
  · intro hk
    rcases List.mem_map.mp hk with ⟨p, hp, hpk⟩
    have := List.of_mem_filter hp
    simp only [decide_eq_true_eq] at this
    exact this hpk
  · exact List.Nodup.sublist (List.Sublist.map _ (List.filter_sublist m)) h

theorem keysNodup_assocRemove {α β : Type} [DecidableEq α] (k : α)
    {m : List (α × β)} (h : keysNodup m) : keysNodup (assocRemove k m) :=
  List.Nodup.sublist (List.Sublist.map _ (List.filter_sublist m)) h

theorem fetch_remote_state_foldl (entries : List RemoteSdk)
    (m : List (String × RemoteSdk))
    (P : List (String × RemoteSdk) → Prop)
    (hP : ∀ m' sdk, P m' → P (assocInsert sdk.info.memdb_filename sdk m'))
    (hm : P m) :
    P (entries.foldl (fun m' sdk => assocInsert sdk.info.memdb_filename sdk m') m) := by
  induction entries generalizing m with
  | nil => exact hm
  | cons e rest ih => exact ih _ (hP m e hm)

theorem fetch_remote_state_keyInv (entries : List RemoteSdk) :
    stateKeyInv (fetch_remote_state entries) := by
  refine fetch_remote_state_foldl entries []
    (fun m => ∀ p ∈ m, p.1 = p.2.info.memdb_filename) ?_ (by simp)
  intro m' sdk hm' p hp
  rcases mem_assocInsert hp with h | h
  · subst h; rfl
  · exact hm' p h

theorem fetch_remote_state_keysNodup (entries : List RemoteSdk) :
    keysNodup (fetch_remote_state entries).sdks := by
  refine fetch_remote_state_foldl entries [] keysNodup ?_ (by simp [keysNodup])
  intro m' sdk hm'
  exact keysNodup_assocInsert _ _ hm'

theorem fetch_remote_state_get_value (entries : List RemoteSdk)
    {p : String × RemoteSdk} (hp : p ∈ (fetch_remote_state entries).sdks) :
    (fetch_remote_state entries).get_sdk p.2.info = some p.2 := by
  have hkey := fetch_remote_state_keyInv entries p hp
  unfold SdkSyncState.get_sdk
  rw [← hkey]
  refine assocGet_eq_some_of_mem _ _ _ (fetch_remote_state_keysNodup entries) ?_
  exact hp

theorem fetch_remote_state_infosNodup (entries : List RemoteSdk) :
    ((fetch_remote_state entries).sdks.map (fun q => q.2.info)).Nodup := by
  apply List.Nodup.of_map SdkInfo.memdb_filename
  have heq : ((fetch_remote_state entries).sdks.map (fun q => q.2.info)).map
      SdkInfo.memdb_filename =
      (fetch_remote_state entries).sdks.map (fun p => p.1) := by
    rw [List.map_map]
    apply List.map_congr_left
    intro p hp
    exact (fetch_remote_state_keyInv entries p hp).symm
  rw [heq]
  exact fetch_remote_state_keysNodup entries

theorem mem_infos_get_sdk (entries : List RemoteSdk) {i : SdkInfo}
    (hi : i ∈ (fetch_remote_state entries).sdks.map (fun q => q.2.info)) :
    ∃ sdk, (fetch_remote_state entries).get_sdk i = some sdk ∧ sdk.info = i := by
  rcases List.mem_map.mp hi with ⟨p, hp, hpi⟩
  exact ⟨p.2, by rw [← hpi]; exact ⟨fetch_remote_state_get_value entries hp, rfl⟩⟩

theorem get_sdk_update (s : SdkSyncState) (sdk : RemoteSdk) (j : SdkInfo) :
    (s.update_sdk sdk).get_sdk j =
      if j = sdk.info then some sdk else s.get_sdk j := by
  unfold SdkSyncState.update_sdk SdkSyncState.get_sdk
  by_cases h : j = sdk.info
  · subst h; simp [assocGet_insert_self]
  · rw [if_neg h]
    exact assocGet_insert_other _ _ _ _
      (fun hc => h (SdkInfo.memdb_filename_injective hc).symm)

theorem get_sdk_remove (s : SdkSyncState) (i j : SdkInfo) :
    (s.remove_sdk i).get_sdk j = if j = i then none else s.get_sdk j := by
  unfold SdkSyncState.remove_sdk SdkSyncState.get_sdk
  by_cases h : j = i
  · subst h; simp [assocGet_remove_self]
  · rw [if_neg h]
    exact assocGet_remove_other _ _ _
      (fun hc => h (SdkInfo.memdb_filename_injective hc).symm)

theorem get_sdk_set_rev (s : SdkSyncState) (r : Option Nat) (j : SdkInfo) :
    ({ s with revision := r } : SdkSyncState).get_sdk j = s.get_sdk j := rfl

/-- The number of "updated" outcomes in a sync report. -/
def countUpdated (rep : List (SdkInfo × SdkOutcome)) : Nat :=
  (rep.filter (fun r => decide (r.2 = SdkOutcome.updated))).length

theorem countUpdated_append (a b : List (SdkInfo × SdkOutcome)) :
    countUpdated (a ++ b) = countUpdated a + countUpdated b := by
  simp [countUpdated, List.filter_append]

theorem countUpdated_single_updated (i : SdkInfo) :
    countUpdated [(i, .updated)] = 1 := rfl

theorem countUpdated_single_unchanged (i : SdkInfo) :
    countUpdated [(i, .unchanged)] = 0 := rfl

theorem countUpdated_single_ignored (i : SdkInfo) :
    countUpdated [(i, .ignored)] = 0 := rfl

/-- The revision currently recorded in the durable state file, with the
fresh/absent state reading as `0` (as `get_revision` reports it). -/
def worldRev (w : World) : Nat :=
  (w.stateFile.getD default).revision.getD 0

theorem update_sdk_none_fs (fetch : RemoteSdk → FetchOutcome) (sdk : RemoteSdk)
    (w w₁ : World) (h : MemDbStash.update_sdk fetch sdk w = (w₁, none)) :
    (∀ k, k ≠ sdk.info.memdb_filename → assocGet w₁.fs k = assocGet w.fs k) ∧
      w₁.stateFile = w.stateFile ∧ w₁.cachedState = w.cachedState ∧
      w₁.memdbs = w.memdbs := by
  unfold MemDbStash.update_sdk at h
  cases hf : fetch sdk <;> rw [hf] at h <;> cases h
  refine ⟨?_, rfl, rfl, rfl⟩
  intro k hk
  exact assocGet_insert_other _ _ _ _ (fun hc => hk hc.symm)

theorem update_sdk_err_fs (fetch : RemoteSdk → FetchOutcome) (sdk : RemoteSdk)
    (w w₁ : World) (e : StashErr)
    (h : MemDbStash.update_sdk fetch sdk w = (w₁, some e)) :
    (∀ k, k ≠ sdk.info.memdb_filename → assocGet w₁.fs k = assocGet w.fs k) ∧
      w₁.stateFile = w.stateFile ∧ w₁.cachedState = w.cachedState ∧
      w₁.memdbs = w.memdbs := by
  unfold MemDbStash.update_sdk at h
  cases hf : fetch sdk <;> rw [hf] at h <;> cases h <;>
    refine ⟨?_, rfl, rfl, rfl⟩ <;> intro k hk
  · rfl
  · rfl
  · exact assocGet_insert_other _ _ _ _ (fun hc => hk hc.symm)


theorem syncLoop_nil (cfg : StashConfig) (fetch : RemoteSdk → FetchOutcome)
    (remote s : SdkSyncState) (td : List SdkInfo) (w : World)
    (rep : List (SdkInfo × SdkOutcome)) :
    syncLoop cfg fetch remote [] s td w rep = ((s, td, w, rep), none) := rfl

theorem syncLoop_cons_ignored (cfg : StashConfig)
    (fetch : RemoteSdk → FetchOutcome) (remote : SdkSyncState) (i : SdkInfo)
    (rest : List SdkInfo) (s : SdkSyncState) (td : List SdkInfo) (w : World)
    (rep : List (SdkInfo × SdkOutcome)) (hig : cfg.sdk_is_ignored i = true) :
    syncLoop cfg fetch remote (i :: rest) s td w rep =
      syncLoop cfg fetch remote rest s (td.filter (fun x => decide (x ≠ i))) w
        (rep ++ [(i, .ignored)]) := by
  rw [syncLoop, if_pos hig]

theorem syncLoop_cons_panic (cfg : StashConfig)
    (fetch : RemoteSdk → FetchOutcome) (remote : SdkSyncState) (i : SdkInfo)
    (rest : List SdkInfo) (s : SdkSyncState) (td : List SdkInfo) (w : World)
    (rep : List (SdkInfo × SdkOutcome)) (hig : cfg.sdk_is_ignored i = false)
    (hr : remote.get_sdk i = none) :
    syncLoop cfg fetch remote (i :: rest) s td w rep =
      ((s, td, w, rep), some .panicUnwrap) := by
  rw [syncLoop, if_neg (by rw [hig]; exact Bool.false_ne_true), hr]

theorem syncLoop_cons_unchanged (cfg : StashConfig)
    (fetch : RemoteSdk → FetchOutcome) (remote : SdkSyncState) (i : SdkInfo)
    (rest : List SdkInfo) (s : SdkSyncState) (td : List SdkInfo) (w : World)
    (rep : List (SdkInfo × SdkOutcome)) (sdk : RemoteSdk)
    (hig : cfg.sdk_is_ignored i = false) (hr : remote.get_sdk i = some sdk)
    (hl : s.get_sdk i = some sdk) :
    syncLoop cfg fetch remote (i :: rest) s td w rep =
      syncLoop cfg fetch remote rest s (td.filter (fun x => decide (x ≠ i))) w
        (rep ++ [(i, .unchanged)]) := by
  rw [syncLoop, if_neg (by rw [hig]; exact Bool.false_ne_true), hr, hl]
  simp

theorem syncLoop_cons_changed_err (cfg : StashConfig)
    (fetch : RemoteSdk → FetchOutcome) (remote : SdkSyncState) (i : SdkInfo)
    (rest : List SdkInfo) (s : SdkSyncState) (td : List SdkInfo) (w : World)
    (rep : List (SdkInfo × SdkOutcome)) (sdk lv : RemoteSdk) (w₁ : World)
    (e : StashErr) (hig : cfg.sdk_is_ignored i = false)
    (hr : remote.get_sdk i = some sdk) (hl : s.get_sdk i = some lv)
    (hne : lv ≠ sdk) (hu : MemDbStash.update_sdk fetch sdk w = (w₁, some e)) :
    syncLoop cfg fetch remote (i :: rest) s td w rep =
      ((s, td, w₁, rep), some e) := by
  rw [syncLoop, if_neg (by rw [hig]; exact Bool.false_ne_true), hr, hl]
  dsimp only
  rw [if_pos hne, hu]

theorem syncLoop_cons_changed_ok (cfg : StashConfig)
    (fetch : RemoteSdk → FetchOutcome) (remote : SdkSyncState) (i : SdkInfo)
    (rest : List SdkInfo) (s : SdkSyncState) (td : List SdkInfo) (w : World)
    (rep : List (SdkInfo × SdkOutcome)) (sdk lv : RemoteSdk) (w₁ : World)
    (hig : cfg.sdk_is_ignored i = false) (hr : remote.get_sdk i = some sdk)
    (hl : s.get_sdk i = some lv) (hne : lv ≠ sdk)
    (hu : MemDbStash.update_sdk fetch sdk w = (w₁, none)) :
    syncLoop cfg fetch remote (i :: rest) s td w rep =
      syncLoop cfg fetch remote rest
        { s.update_sdk sdk with
            revision := some ((s.update_sdk sdk).revision.getD 0 + 1) }
        (td.filter (fun x => decide (x ≠ i)))
        (save_local_state
          { s.update_sdk sdk with
              revision := some ((s.update_sdk sdk).revision.getD 0 + 1) }
          { w₁ with memdbs := assocRemove i w₁.memdbs })
        (rep ++ [(i, .updated)]) := by
  rw [syncLoop, if_neg (by rw [hig]; exact Bool.false_ne_true), hr, hl]
  dsimp only
  rw [if_pos hne, hu]

theorem syncLoop_cons_new_err (cfg : StashConfig)
    (fetch : RemoteSdk → FetchOutcome) (remote : SdkSyncState) (i : SdkInfo)
    (rest : List SdkInfo) (s : SdkSyncState) (td : List SdkInfo) (w : World)
    (rep : List (SdkInfo × SdkOutcome)) (sdk : RemoteSdk) (w₁ : World)
    (e : StashErr) (hig : cfg.sdk_is_ignored i = false)
    (hr : remote.get_sdk i = some sdk) (hl : s.get_sdk i = none)
    (hu : MemDbStash.update_sdk fetch sdk w = (w₁, some e)) :
    syncLoop cfg fetch remote (i :: rest) s td w rep =
      ((s, td, w₁, rep), some e) := by
  rw [syncLoop, if_neg (by rw [hig]; exact Bool.false_ne_true), hr, hl]
  dsimp only
  rw [hu]

theorem syncLoop_cons_new_ok (cfg : StashConfig)
    (fetch : RemoteSdk → FetchOutcome) (remote : SdkSyncState) (i : SdkInfo)
    (rest : List SdkInfo) (s : SdkSyncState) (td : List SdkInfo) (w : World)
    (rep : List (SdkInfo × SdkOutcome)) (sdk : RemoteSdk) (w₁ : World)
    (hig : cfg.sdk_is_ignored i = false) (hr : remote.get_sdk i = some sdk)
    (hl : s.get_sdk i = none)
    (hu : MemDbStash.update_sdk fetch sdk w = (w₁, none)) :
    syncLoop cfg fetch remote (i :: rest) s td w rep =
      syncLoop cfg fetch remote rest
        { s.update_sdk sdk with
            revision := some ((s.update_sdk sdk).revision.getD 0 + 1) }
        (td.filter (fun x => decide (x ≠ i)))
        (save_local_state
          { s.update_sdk sdk with
              revision := some ((s.update_sdk sdk).revision.getD 0 + 1) } w₁)
        (rep ++ [(i, .updated)]) := by
  rw [syncLoop, if_neg (by rw [hig]; exact Bool.false_ne_true), hr, hl]
  dsimp only
  rw [hu]

theorem syncLoop_ok_spec (cfg : StashConfig) (fetch : RemoteSdk → FetchOutcome)
    (remote : SdkSyncState) :
    ∀ (todo : List SdkInfo) (s : SdkSyncState) (td : List SdkInfo) (w : World)
      (rep : List (SdkInfo × SdkOutcome)) (s' : SdkSyncState)
      (td' : List SdkInfo) (w' : World) (rep' : List (SdkInfo × SdkOutcome)),
      syncLoop cfg fetch remote todo s td w rep = ((s', td', w', rep'), none) →
      (∀ i ∈ todo, ∃ sdk, remote.get_sdk i = some sdk ∧ sdk.info = i) →
      todo.Nodup →
      (∀ j : SdkInfo, s'.get_sdk j =
          if j ∈ todo ∧ cfg.sdk_is_ignored j = false then remote.get_sdk j
          else s.get_sdk j) ∧
        td' = td.filter (fun x => decide (x ∉ todo)) ∧
        s'.revision.getD 0 + countUpdated rep =
          s.revision.getD 0 + countUpdated rep' ∧
        (∃ extra, rep' = rep ++ extra) ∧
        (∀ j : SdkInfo, cfg.sdk_is_ignored j = true →
          assocGet w'.fs j.memdb_filename = assocGet w.fs j.memdb_filename) := by
  intro todo
  induction todo with
  | nil =>
    intro s td w rep s' td' w' rep' h _ _
    rw [syncLoop_nil] at h
    simp only [Prod.mk.injEq] at h
    obtain ⟨⟨h1, h2, h3, h4⟩, _⟩ := h
    subst h1; subst h2; subst h3; subst h4
    refine ⟨by simp, ?_, by omega, ⟨[], by simp⟩, fun _ _ => rfl⟩
    rw [List.filter_eq_self.mpr]
    intro a _
    simp
  | cons i rest ih =>
    intro s td w rep s' td' w' rep' h hrem hnd
    have hremi := hrem i (List.mem_cons_self i rest)
    have hrem' : ∀ a ∈ rest, ∃ sdk, remote.get_sdk a = some sdk ∧ sdk.info = a :=
      fun a ha => hrem a (List.mem_cons_of_mem _ ha)
    have hndi : i ∉ rest := (List.nodup_cons.mp hnd).1
    have hnd' : rest.Nodup := (List.nodup_cons.mp hnd).2
    have hfilter : ∀ td₀ : List SdkInfo,
        (td₀.filter (fun x => decide (x ≠ i))).filter
            (fun x => decide (x ∉ rest)) =
          td₀.filter (fun x => decide (x ∉ i :: rest)) := by
      intro td₀
      rw [List.filter_filter]
      apply List.filter_congr
      intro x _
      by_cases h1 : x = i <;> by_cases h2 : x ∈ rest <;>
        simp [h1, h2, List.mem_cons]
    have hcond : ∀ j : SdkInfo, j ≠ i →
        ((j ∈ i :: rest ∧ cfg.sdk_is_ignored j = false) ↔
          (j ∈ rest ∧ cfg.sdk_is_ignored j = false)) := by
      intro j hji
      constructor
      · rintro ⟨hj1, hj2⟩
        rcases List.mem_cons.mp hj1 with hc | hc
        · exact absurd hc hji
        · exact ⟨hc, hj2⟩
      · rintro ⟨hj1, hj2⟩
        exact ⟨List.mem_cons_of_mem _ hj1, hj2⟩
    by_cases hig : cfg.sdk_is_ignored i = true
    · rw [syncLoop_cons_ignored cfg fetch remote i rest s td w rep hig] at h
      obtain ⟨c1, c2, c3, c4, c5⟩ := ih _ _ _ _ _ _ _ _ h hrem' hnd'
      refine ⟨?_, ?_, ?_, ?_, c5⟩
      · intro j
        rw [c1 j]
        by_cases hji : j = i
        · subst hji
          rw [if_neg (fun hc => hndi hc.1), if_neg (fun hc => by
            rw [hig] at hc
            exact Bool.false_ne_true hc.2.symm)]
        · by_cases hj : j ∈ rest ∧ cfg.sdk_is_ignored j = false
          · rw [if_pos hj, if_pos ((hcond j hji).mpr hj)]
          · rw [if_neg hj, if_neg (fun hc => hj ((hcond j hji).mp hc))]
      · rw [c2, hfilter]
      · rw [countUpdated_append, countUpdated_single_ignored] at c3
        omega
      · obtain ⟨extra, he⟩ := c4
        exact ⟨(i, .ignored) :: extra, by simp [he]⟩
    · obtain ⟨sdk, hr, hsi⟩ := hremi
      have hig' : cfg.sdk_is_ignored i = false := Bool.not_eq_true _ |>.mp hig
      cases hl : s.get_sdk i with
      | some lv =>
        by_cases hne : lv = sdk
        · subst hne
          rw [syncLoop_cons_unchanged cfg fetch remote i rest s td w rep lv
            hig' hr hl] at h
          obtain ⟨c1, c2, c3, c4, c5⟩ := ih _ _ _ _ _ _ _ _ h hrem' hnd'
          refine ⟨?_, ?_, ?_, ?_, c5⟩
          · intro j
            rw [c1 j]
            by_cases hji : j = i
            · subst hji
              rw [if_neg (fun hc => hndi hc.1),
                if_pos ⟨List.mem_cons_self _ _, hig'⟩, hr, hl]
            · by_cases hj : j ∈ rest ∧ cfg.sdk_is_ignored j = false
              · rw [if_pos hj, if_pos ((hcond j hji).mpr hj)]
              · rw [if_neg hj, if_neg (fun hc => hj ((hcond j hji).mp hc))]
          · rw [c2, hfilter]
          · rw [countUpdated_append, countUpdated_single_unchanged] at c3
            omega
          · obtain ⟨extra, he⟩ := c4
            exact ⟨(i, .unchanged) :: extra, by simp [he]⟩
        · rcases hu : MemDbStash.update_sdk fetch sdk w with ⟨w₁, oe⟩
          cases oe with
          | some e =>
            rw [syncLoop_cons_changed_err cfg fetch remote i rest s td w rep
              sdk lv w₁ e hig' hr hl hne hu] at h
            simp at h
          | none =>
            rw [syncLoop_cons_changed_ok cfg fetch remote i rest s td w rep
              sdk lv w₁ hig' hr hl hne hu] at h
            obtain ⟨hfs, hsf, hcs, hmd⟩ := update_sdk_none_fs fetch sdk w w₁ hu
            obtain ⟨c1, c2, c3, c4, c5⟩ := ih _ _ _ _ _ _ _ _ h hrem' hnd'
            refine ⟨?_, ?_, ?_, ?_, ?_⟩
            · intro j
              rw [c1 j]
              by_cases hji : j = i
              · subst hji
                rw [if_neg (fun hc => hndi hc.1),
                  if_pos ⟨List.mem_cons_self _ _, hig'⟩,
                  get_sdk_set_rev, get_sdk_update, hsi, if_pos rfl, hr]
              · by_cases hj : j ∈ rest ∧ cfg.sdk_is_ignored j = false
                · rw [if_pos hj, if_pos ((hcond j hji).mpr hj)]
                · rw [if_neg hj, if_neg (fun hc => hj ((hcond j hji).mp hc)),
                    get_sdk_set_rev, get_sdk_update, hsi, if_neg hji]
            · rw [c2, hfilter]
            · rw [countUpdated_append, countUpdated_single_updated] at c3
              have hrev : (({ s.update_sdk sdk with
                  revision := some ((s.update_sdk sdk).revision.getD 0 + 1) } :
                    SdkSyncState)).revision.getD 0 = s.revision.getD 0 + 1 := rfl
              omega
            · obtain ⟨extra, he⟩ := c4
              exact ⟨(i, .updated) :: extra, by simp [he]⟩
            · intro j hj
              rw [c5 j hj]
              have hji : j ≠ i := by
                intro hc
                subst hc
                rw [hj] at hig'
                exact Bool.false_ne_true hig'.symm
              exact hfs j.memdb_filename
                (by rw [hsi]
                    intro hc
                    exact hji (SdkInfo.memdb_filename_injective hc))
      | none =>
        rcases hu : MemDbStash.update_sdk fetch sdk w with ⟨w₁, oe⟩
        cases oe with
        | some e =>
          rw [syncLoop_cons_new_err cfg fetch remote i rest s td w rep
            sdk w₁ e hig' hr hl hu] at h
          simp at h
        | none =>
          rw [syncLoop_cons_new_ok cfg fetch remote i rest s td w rep
            sdk w₁ hig' hr hl hu] at h
          obtain ⟨hfs, hsf, hcs, hmd⟩ := update_sdk_none_fs fetch sdk w w₁ hu
          obtain ⟨c1, c2, c3, c4, c5⟩ := ih _ _ _ _ _ _ _ _ h hrem' hnd'
          refine ⟨?_, ?_, ?_, ?_, ?_⟩
          · intro j
            rw [c1 j]
            by_cases hji : j = i
            · subst hji
              rw [if_neg (fun hc => hndi hc.1),
                if_pos ⟨List.mem_cons_self _ _, hig'⟩,
                get_sdk_set_rev, get_sdk_update, hsi, if_pos rfl, hr]
            · by_cases hj : j ∈ rest ∧ cfg.sdk_is_ignored j = false
              · rw [if_pos hj, if_pos ((hcond j hji).mpr hj)]
              · rw [if_neg hj, if_neg (fun hc => hj ((hcond j hji).mp hc)),
                  get_sdk_set_rev, get_sdk_update, hsi, if_neg hji]
          · rw [c2, hfilter]
          · rw [countUpdated_append, countUpdated_single_updated] at c3
            have hrev : (({ s.update_sdk sdk with
                revision := some ((s.update_sdk sdk).revision.getD 0 + 1) } :
                  SdkSyncState)).revision.getD 0 = s.revision.getD 0 + 1 := rfl
            omega
          · obtain ⟨extra, he⟩ := c4
            exact ⟨(i, .updated) :: extra, by simp [he]⟩
          · intro j hj
            rw [c5 j hj]
            have hji : j ≠ i := by
              intro hc
              subst hc
              rw [hj] at hig'
              exact Bool.false_ne_true hig'.symm
            exact hfs j.memdb_filename
              (by rw [hsi]
                  intro hc
                  exact hji (SdkInfo.memdb_filename_injective hc))

theorem worldRev_save (s : SdkSyncState) (w : World) :
    worldRev (save_local_state s w) = s.revision.getD 0 := rfl

theorem syncLoop_mono (cfg : StashConfig) (fetch : RemoteSdk → FetchOutcome)
    (remote : SdkSyncState) :
    ∀ (todo : List SdkInfo) (s : SdkSyncState) (td : List SdkInfo) (w : World)
      (rep : List (SdkInfo × SdkOutcome))
      (out : SdkSyncState × List SdkInfo × World × List (SdkInfo × SdkOutcome))
      (oe : Option StashErr),
      syncLoop cfg fetch remote todo s td w rep = (out, oe) →
      worldRev w ≤ s.revision.getD 0 →
      worldRev w ≤ worldRev out.2.2.1 ∧
        worldRev out.2.2.1 ≤ out.1.revision.getD 0 ∧
        s.revision.getD 0 ≤ out.1.revision.getD 0 := by
  intro todo
  induction todo with
  | nil =>
    intro s td w rep out oe h hw
    rw [syncLoop_nil] at h
    obtain ⟨h1, _⟩ := Prod.mk.injEq .. ▸ h
    cases h
    exact ⟨le_refl _, hw, le_refl _⟩
  | cons i rest ih =>
    intro s td w rep out oe h hw
    by_cases hig : cfg.sdk_is_ignored i = true
    · rw [syncLoop_cons_ignored cfg fetch remote i rest s td w rep hig] at h
      exact ih _ _ _ _ _ _ h hw
    · have hig' : cfg.sdk_is_ignored i = false := Bool.not_eq_true _ |>.mp hig
      cases hr : remote.get_sdk i with
      | none =>
        rw [syncLoop_cons_panic cfg fetch remote i rest s td w rep hig' hr] at h
        cases h
        exact ⟨le_refl _, hw, le_refl _⟩
      | some sdk =>
        cases hl : s.get_sdk i with
        | some lv =>
          by_cases hne : lv = sdk
          · subst hne
            rw [syncLoop_cons_unchanged cfg fetch remote i rest s td w rep lv
              hig' hr hl] at h
            exact ih _ _ _ _ _ _ h hw
          · rcases hu : MemDbStash.update_sdk fetch sdk w with ⟨w₁, oe'⟩
            cases oe' with
            | some e =>
              rw [syncLoop_cons_changed_err cfg fetch remote i rest s td w rep
                sdk lv w₁ e hig' hr hl hne hu] at h
              cases h
              have hsf := (update_sdk_err_fs fetch sdk w w₁ e hu).2.1
              have : worldRev w₁ = worldRev w := by
                unfold worldRev
                rw [hsf]
              rw [this]
              exact ⟨le_refl _, hw, le_refl _⟩
            | none =>
              rw [syncLoop_cons_changed_ok cfg fetch remote i rest s td w rep
                sdk lv w₁ hig' hr hl hne hu] at h
              have hrec := ih _ _ _ _ _ _ h (le_of_eq (worldRev_save _ _))
              rw [worldRev_save] at hrec
              have hrev : (({ s.update_sdk sdk with
                  revision := some ((s.update_sdk sdk).revision.getD 0 + 1) } :
                    SdkSyncState)).revision.getD 0 = s.revision.getD 0 + 1 := rfl
              rw [hrev] at hrec
              exact ⟨by omega, hrec.2.1, by omega⟩
        | none =>
          rcases hu : MemDbStash.update_sdk fetch sdk w with ⟨w₁, oe'⟩
          cases oe' with
          | some e =>
            rw [syncLoop_cons_new_err cfg fetch remote i rest s td w rep
              sdk w₁ e hig' hr hl hu] at h
            cases h
            have hsf := (update_sdk_err_fs fetch sdk w w₁ e hu).2.1
            have : worldRev w₁ = worldRev w := by
              unfold worldRev
              rw [hsf]
            rw [this]
            exact ⟨le_refl _, hw, le_refl _⟩
          | none =>
            rw [syncLoop_cons_new_ok cfg fetch remote i rest s td w rep
              sdk w₁ hig' hr hl hu] at h
            have hrec := ih _ _ _ _ _ _ h (le_of_eq (worldRev_save _ _))
            rw [worldRev_save] at hrec
            have hrev : (({ s.update_sdk sdk with
                revision := some ((s.update_sdk sdk).revision.getD 0 + 1) } :
                  SdkSyncState)).revision.getD 0 = s.revision.getD 0 + 1 := rfl
            rw [hrev] at hrec
            exact ⟨by omega, hrec.2.1, by omega⟩

theorem update_sdk_congr (f1 f2 : RemoteSdk → FetchOutcome) (sdk : RemoteSdk)
    (w : World) (h : f1 sdk = f2 sdk) :
    MemDbStash.update_sdk f1 sdk w = MemDbStash.update_sdk f2 sdk w := by
  unfold MemDbStash.update_sdk
  rw [h]

theorem syncLoop_oracle (cfg : StashConfig)
    (f1 f2 : RemoteSdk → FetchOutcome) (remote : SdkSyncState)
    (hf : ∀ sdk : RemoteSdk, cfg.sdk_is_ignored sdk.info = false →
      f1 sdk = f2 sdk) :
    ∀ (todo : List SdkInfo) (s : SdkSyncState) (td : List SdkInfo) (w : World)
      (rep : List (SdkInfo × SdkOutcome)),
      (∀ i ∈ todo, ∃ sdk, remote.get_sdk i = some sdk ∧ sdk.info = i) →
      syncLoop cfg f1 remote todo s td w rep =
        syncLoop cfg f2 remote todo s td w rep := by
  intro todo
  induction todo with
  | nil => intro s td w rep _; rw [syncLoop_nil, syncLoop_nil]
  | cons i rest ih =>
    intro s td w rep hrem
    obtain ⟨sdk, hr, hsi⟩ := hrem i (List.mem_cons_self i rest)
    have hrem' : ∀ a ∈ rest, ∃ sdk, remote.get_sdk a = some sdk ∧ sdk.info = a :=
      fun a ha => hrem a (List.mem_cons_of_mem _ ha)
    by_cases hig : cfg.sdk_is_ignored i = true
    · rw [syncLoop_cons_ignored cfg f1 remote i rest s td w rep hig,
        syncLoop_cons_ignored cfg f2 remote i rest s td w rep hig]
      exact ih _ _ _ _ hrem'
    · have hig' : cfg.sdk_is_ignored i = false := Bool.not_eq_true _ |>.mp hig
      have hfi : f1 sdk = f2 sdk := hf sdk (by rw [hsi]; exact hig')
      cases hl : s.get_sdk i with
      | some lv =>
        by_cases hne : lv = sdk
        · subst hne
          rw [syncLoop_cons_unchanged cfg f1 remote i rest s td w rep lv
            hig' hr hl,
            syncLoop_cons_unchanged cfg f2 remote i rest s td w rep lv
            hig' hr hl]
          exact ih _ _ _ _ hrem'
        · rcases hu : MemDbStash.update_sdk f1 sdk w with ⟨w₁, oe⟩
          have hu2 : MemDbStash.update_sdk f2 sdk w = (w₁, oe) := by
            rw [← update_sdk_congr f1 f2 sdk w hfi]
            exact hu
          cases oe with
          | some e =>
            rw [syncLoop_cons_changed_err cfg f1 remote i rest s td w rep
              sdk lv w₁ e hig' hr hl hne hu,
              syncLoop_cons_changed_err cfg f2 remote i rest s td w rep
              sdk lv w₁ e hig' hr hl hne hu2]
          | none =>
            rw [syncLoop_cons_changed_ok cfg f1 remote i rest s td w rep
              sdk lv w₁ hig' hr hl hne hu,
              syncLoop_cons_changed_ok cfg f2 remote i rest s td w rep
              sdk lv w₁ hig' hr hl hne hu2]
            exact ih _ _ _ _ hrem'
      | none =>
        rcases hu : MemDbStash.update_sdk f1 sdk w with ⟨w₁, oe⟩
        have hu2 : MemDbStash.update_sdk f2 sdk w = (w₁, oe) := by
          rw [← update_sdk_congr f1 f2 sdk w hfi]
          exact hu
        cases oe with
        | some e =>
          rw [syncLoop_cons_new_err cfg f1 remote i rest s td w rep
            sdk w₁ e hig' hr hl hu,
            syncLoop_cons_new_err cfg f2 remote i rest s td w rep
            sdk w₁ e hig' hr hl hu2]
        | none =>
          rw [syncLoop_cons_new_ok cfg f1 remote i rest s td w rep
            sdk w₁ hig' hr hl hu,
            syncLoop_cons_new_ok cfg f2 remote i rest s td w rep
            sdk w₁ hig' hr hl hu2]
          exact ih _ _ _ _ hrem'

theorem syncLoop_nochange (cfg : StashConfig) (fetch : RemoteSdk → FetchOutcome)
    (remote : SdkSyncState) :
    ∀ (todo : List SdkInfo) (s : SdkSyncState) (td : List SdkInfo) (w : World)
      (rep : List (SdkInfo × SdkOutcome)),
      (∀ i ∈ todo, ∃ sdk, remote.get_sdk i = some sdk ∧ sdk.info = i) →
      (∀ i ∈ todo, cfg.sdk_is_ignored i = false →
        s.get_sdk i = remote.get_sdk i) →
      syncLoop cfg fetch remote todo s td w rep =
        ((s, td.filter (fun x => decide (x ∉ todo)), w,
          rep ++ todo.map (fun i =>
            (i, if cfg.sdk_is_ignored i then SdkOutcome.ignored
                else SdkOutcome.unchanged))), none) := by
  intro todo
  induction todo with
  | nil =>
    intro s td w rep _ _
    rw [syncLoop_nil]
    have h1 : td.filter (fun x => decide (x ∉ ([] : List SdkInfo))) = td := by
      rw [List.filter_eq_self.mpr]
      intro a _
      simp
    rw [h1]
    simp
  | cons i rest ih =>
    intro s td w rep hrem hagree
    have hrem' : ∀ a ∈ rest, ∃ sdk, remote.get_sdk a = some sdk ∧ sdk.info = a :=
      fun a ha => hrem a (List.mem_cons_of_mem _ ha)
    have hagree' : ∀ a ∈ rest, cfg.sdk_is_ignored a = false →
        s.get_sdk a = remote.get_sdk a :=
      fun a ha => hagree a (List.mem_cons_of_mem _ ha)
    have hfilter :
        (td.filter (fun x => decide (x ≠ i))).filter
            (fun x => decide (x ∉ rest)) =
          td.filter (fun x => decide (x ∉ i :: rest)) := by
      rw [List.filter_filter]
      apply List.filter_congr
      intro x _
      by_cases h1 : x = i <;> by_cases h2 : x ∈ rest <;>
        simp [h1, h2, List.mem_cons]
    by_cases hig : cfg.sdk_is_ignored i = true
    · rw [syncLoop_cons_ignored cfg fetch remote i rest s td w rep hig,
        ih _ _ _ _ hrem' hagree', hfilter]
      simp [hig]
    · have hig' : cfg.sdk_is_ignored i = false := Bool.not_eq_true _ |>.mp hig
      obtain ⟨sdk, hr, hsi⟩ := hrem i (List.mem_cons_self i rest)
      have hl : s.get_sdk i = some sdk := by
        rw [hagree i (List.mem_cons_self i rest) hig', hr]
      rw [syncLoop_cons_unchanged cfg fetch remote i rest s td w rep sdk
        hig' hr hl, ih _ _ _ _ hrem' hagree', hfilter]
      simp [hig']

theorem deleteLoop_cons (i : SdkInfo) (rest : List SdkInfo) (s : SdkSyncState)
    (w : World) :
    deleteLoop (i :: rest) s w = deleteLoop rest (s.remove_sdk i) w := by
  rw [deleteLoop]
  have h : (s.remove_sdk i).get_sdk i = none := by
    rw [get_sdk_remove, if_pos rfl]
  dsimp only
  rw [h]

theorem deleteLoop_spec :
    ∀ (td : List SdkInfo) (s : SdkSyncState) (w : World),
      (deleteLoop td s w).2 = w ∧
        (deleteLoop td s w).1.revision = s.revision ∧
        (∀ j : SdkInfo, (deleteLoop td s w).1.get_sdk j =
          if j ∈ td then none else s.get_sdk j) := by
  intro td
  induction td with
  | nil =>
    intro s w
    refine ⟨rfl, rfl, ?_⟩
    intro j
    simp [deleteLoop]
  | cons i rest ih =>
    intro s w
    rw [deleteLoop_cons]
    obtain ⟨c1, c2, c3⟩ := ih (s.remove_sdk i) w
    refine ⟨c1, c2.trans rfl, ?_⟩
    intro j
    rw [c3 j, get_sdk_remove]
    by_cases h1 : j ∈ rest
    · rw [if_pos h1, if_pos (List.mem_cons_of_mem _ h1)]
    · rw [if_neg h1]
      by_cases h2 : j = i
      · rw [if_pos h2, if_pos (by rw [h2]; exact List.mem_cons_self _ _)]
      · rw [if_neg h2, if_neg (by
          intro hc
          rcases List.mem_cons.mp hc with hc | hc
          · exact h2 hc
          · exact h1 hc)]

theorem sync_unavailable_eq (cfg : StashConfig)
    (fetch : RemoteSdk → FetchOutcome) (w : World) :
    MemDbStash.sync cfg .unavailable fetch w =
      ({ w with cachedState := some (w.stateFile.getD default) },
        .error .s3Unavailable) := rfl

theorem sync_otherErr_eq (cfg : StashConfig)
    (fetch : RemoteSdk → FetchOutcome) (w : World) :
    MemDbStash.sync cfg .otherErr fetch w =
      ({ w with cachedState := some (w.stateFile.getD default) },
        .error .s3Other) := rfl

theorem sync_ok_unfold (cfg : StashConfig) (entries : List RemoteSdk)
    (fetch : RemoteSdk → FetchOutcome) (w : World) {ls : SdkSyncState}
    {td : List SdkInfo} {w2 : World} {rep1 : List (SdkInfo × SdkOutcome)}
    (hloop : syncLoop cfg fetch (fetch_remote_state entries)
        (((fetch_remote_state entries).sdks.map
          (fun q => q.2.info)).insertionSort
            (fun a b => SdkInfo.le b a = true))
        (w.stateFile.getD default)
        ((w.stateFile.getD default).sdks.map (fun q => q.2.info))
        { w with cachedState := some (w.stateFile.getD default) } [] =
      ((ls, td, w2, rep1), none)) :
    MemDbStash.sync cfg (.ok entries) fetch w =
      (save_local_state
        { (deleteLoop td ls w2).1 with
            revision := some ((deleteLoop td ls w2).1.revision.getD 0 + 1) }
        (deleteLoop td ls w2).2, .ok rep1) := by
  unfold MemDbStash.sync
  dsimp only [read_local_state]
  rw [hloop]

theorem sync_err_unfold (cfg : StashConfig) (entries : List RemoteSdk)
    (fetch : RemoteSdk → FetchOutcome) (w : World) {ls : SdkSyncState}
    {td : List SdkInfo} {w2 : World} {rep1 : List (SdkInfo × SdkOutcome)}
    {e : StashErr}
    (hloop : syncLoop cfg fetch (fetch_remote_state entries)
        (((fetch_remote_state entries).sdks.map
          (fun q => q.2.info)).insertionSort
            (fun a b => SdkInfo.le b a = true))
        (w.stateFile.getD default)
        ((w.stateFile.getD default).sdks.map (fun q => q.2.info))
        { w with cachedState := some (w.stateFile.getD default) } [] =
      ((ls, td, w2, rep1), some e)) :
    MemDbStash.sync cfg (.ok entries) fetch w = (w2, .error e) := by
  unfold MemDbStash.sync
  dsimp only [read_local_state]
  rw [hloop]

theorem sync_ok_spec (cfg : StashConfig) (entries : List RemoteSdk)
    (fetch : RemoteSdk → FetchOutcome) (w w' : World)
    (rep : List (SdkInfo × SdkOutcome))
    (h : MemDbStash.sync cfg (.ok entries) fetch w = (w', .ok rep)) :
    ∃ S : SdkSyncState,
      w'.stateFile = some S ∧ w'.cachedState = some S ∧
      S.revision = some ((w.stateFile.getD default).revision.getD 0 +
        countUpdated rep + 1) ∧
      (∀ j : SdkInfo,
        j ∈ (fetch_remote_state entries).sdks.map (fun q => q.2.info) →
        S.get_sdk j =
          if cfg.sdk_is_ignored j then (w.stateFile.getD default).get_sdk j
          else (fetch_remote_state entries).get_sdk j) ∧
      (∀ j : SdkInfo,
        j ∉ (fetch_remote_state entries).sdks.map (fun q => q.2.info) →
        S.get_sdk j =
          if j ∈ (w.stateFile.getD default).sdks.map (fun q => q.2.info) then
            none
          else (w.stateFile.getD default).get_sdk j) ∧
      (∀ j : SdkInfo, cfg.sdk_is_ignored j = true →
        assocGet w'.fs j.memdb_filename = assocGet w.fs j.memdb_filename) := by
  rcases hloop : syncLoop cfg fetch (fetch_remote_state entries)
      (((fetch_remote_state entries).sdks.map
        (fun q => q.2.info)).insertionSort
          (fun a b => SdkInfo.le b a = true))
      (w.stateFile.getD default)
      ((w.stateFile.getD default).sdks.map (fun q => q.2.info))
      { w with cachedState := some (w.stateFile.getD default) } [] with
    ⟨⟨ls, td, w2, rep1⟩, oe⟩
  cases oe with
  | some e =>
    have hbad := (sync_err_unfold cfg entries fetch w hloop).symm.trans h
    simp at hbad
  | none =>
    have heq := (sync_ok_unfold cfg entries fetch w hloop).symm.trans h
    simp only [Prod.mk.injEq, Except.ok.injEq] at heq
    obtain ⟨hw', hrep⟩ := heq
    subst hrep
    have hperm := List.perm_insertionSort (fun a b => SdkInfo.le b a = true)
      ((fetch_remote_state entries).sdks.map (fun q => q.2.info))
    have hrem : ∀ i ∈ ((fetch_remote_state entries).sdks.map
        (fun q => q.2.info)).insertionSort (fun a b => SdkInfo.le b a = true),
        ∃ sdk, (fetch_remote_state entries).get_sdk i = some sdk ∧
          sdk.info = i :=
      fun i hi => mem_infos_get_sdk entries (hperm.mem_iff.mp hi)
    have hnd : (((fetch_remote_state entries).sdks.map
        (fun q => q.2.info)).insertionSort
          (fun a b => SdkInfo.le b a = true)).Nodup :=
      hperm.symm.nodup (fetch_remote_state_infosNodup entries)
    obtain ⟨c1, c2, c3, _, c5⟩ :=
      syncLoop_ok_spec cfg fetch (fetch_remote_state entries) _ _ _ _ _
        ls td w2 rep1 hloop hrem hnd
    obtain ⟨d1, d2, d3⟩ := deleteLoop_spec td ls w2
    refine ⟨{ (deleteLoop td ls w2).1 with
        revision := some ((deleteLoop td ls w2).1.revision.getD 0 + 1) },
      ?_, ?_, ?_, ?_, ?_, ?_⟩
    · rw [← hw']
      rfl
    · rw [← hw']
      rfl
    · have hls : ls.revision.getD 0 =
          (w.stateFile.getD default).revision.getD 0 + countUpdated rep1 := by
        have hz : countUpdated ([] : List (SdkInfo × SdkOutcome)) = 0 := rfl
        omega
      rw [d2, hls]
    · intro j hj
      rw [get_sdk_set_rev, d3 j]
      have hjs : j ∈ ((fetch_remote_state entries).sdks.map
          (fun q => q.2.info)).insertionSort
            (fun a b => SdkInfo.le b a = true) := hperm.mem_iff.mpr hj
      have hjtd : j ∉ td := by
        rw [c2]
        intro hc
        have := (List.mem_filter.mp hc).2
        simp only [decide_eq_true_eq] at this
        exact this hjs
      rw [if_neg hjtd, c1 j]
      by_cases hig : cfg.sdk_is_ignored j = true
      · rw [if_pos hig, if_neg (fun hc => by
          rw [hig] at hc
          exact Bool.false_ne_true hc.2.symm)]
      · have hig' : cfg.sdk_is_ignored j = false := Bool.not_eq_true _ |>.mp hig
        rw [if_pos ⟨hjs, hig'⟩, hig']
        simp
    · intro j hj
      rw [get_sdk_set_rev, d3 j]
      have hjs : j ∉ ((fetch_remote_state entries).sdks.map
          (fun q => q.2.info)).insertionSort
            (fun a b => SdkInfo.le b a = true) :=
        fun hc => hj (hperm.mem_iff.mp hc)
      by_cases htd0 : j ∈ (w.stateFile.getD default).sdks.map
          (fun q => q.2.info)
      · rw [if_pos htd0, if_pos (by
          rw [c2]
          exact List.mem_filter.mpr ⟨htd0, by
            simp only [decide_eq_true_eq]
            exact hjs⟩)]
      · rw [if_neg htd0, if_neg (by
          rw [c2]
          intro hc
          exact htd0 (List.mem_filter.mp hc).1), c1 j,
          if_neg (fun hc => hjs hc.1)]
    · intro j hjg
      have hw2fs : w'.fs = w2.fs := by
        rw [← hw', d1]
        rfl
      rw [hw2fs]
      exact c5 j hjg

theorem get_local_state_fs (w : World) : (get_local_state w).2.fs = w.fs := by
  unfold get_local_state
  cases w.cachedState <;> rfl

theorem get_local_state_stateFile (w : World) :
    (get_local_state w).2.stateFile = w.stateFile := by
  unfold get_local_state
  cases w.cachedState <;> rfl

def infoA : SdkInfo := ⟨0, 0, 0⟩

def infoB : SdkInfo := ⟨1, 0, 0⟩

def infoC : SdkInfo := ⟨2, 0, 0⟩

def sdkA : RemoteSdk := ⟨infoA.memdb_filename, infoA, 100, "ea"⟩

def sdkB : RemoteSdk := ⟨infoB.memdb_filename, infoB, 200, "eb"⟩

def sdkB2 : RemoteSdk := ⟨infoB.memdb_filename, infoB, 200, "eb2"⟩

def sdkC : RemoteSdk := ⟨infoC.memdb_filename, infoC, 300, "ec"⟩

/-- A stash configuration with no ignore patterns and a trivial fuzzy
algorithm. -/
def cfgNone : StashConfig := ⟨⟨fun _ => false⟩, fun _ _ => none⟩

/-- A stash configuration whose ignore patterns match exactly `infoA`. -/
def cfgIgnoreA : StashConfig :=
  ⟨⟨fun s => decide (s = infoA.sdk_id)⟩, fun _ _ => none⟩

/-- A fetch oracle in which every download and copy succeeds, producing
content derived from the SDK's size. -/
def fetchOkSize : RemoteSdk → FetchOutcome := fun sdk => .ok (sdk.size + 1)

/-- A world whose durable state holds identities A and B, with both files on
disk and both handles cached. -/
def wAB : World :=
  { stateFile := some ⟨[(infoA.memdb_filename, sdkA),
      (infoB.memdb_filename, sdkB)], some 5⟩
    cachedState := none
    fs := [(infoA.memdb_filename, 10), (infoB.memdb_filename, 11)]
    memdbs := [(infoA, ⟨10⟩), (infoB, ⟨11⟩)] }

/-- C9: building a state from the remote catalog, inserting via `update_sdk`
and removing via `remove_sdk` each preserve the invariant that every key of
the `sdks` map equals the canonical memdb filename derived from the stored
value's identity. -/
theorem C9_state_key_invariant :
    (∀ entries : List RemoteSdk, stateKeyInv (fetch_remote_state entries)) ∧
    (∀ (s : SdkSyncState) (sdk : RemoteSdk), stateKeyInv s →
      stateKeyInv (s.update_sdk sdk)) ∧
    (∀ (s : SdkSyncState) (info : SdkInfo), stateKeyInv s →
      stateKeyInv (s.remove_sdk info)) := by
  refine ⟨fetch_remote_state_keyInv, ?_, ?_⟩
  · intro s sdk hs p hp
    rcases mem_assocInsert hp with h | h
    · subst h; rfl
    · exact hs p h
  · intro s info hs p hp
    exact hs p (mem_assocRemove hp)

/-- Witness for C9: the invariant transfers across a concrete insertion and a
concrete removal. -/
theorem C9_state_key_invariant_witness :
    stateKeyInv ((⟨[], none⟩ : SdkSyncState).update_sdk sdkA) ∧
    stateKeyInv ((⟨[(infoA.memdb_filename, sdkA)], none⟩ :
      SdkSyncState).remove_sdk infoA) :=
  ⟨C9_state_key_invariant.2.1 ⟨[], none⟩ sdkA (by intro p hp; simp at hp),
   C9_state_key_invariant.2.2 ⟨[(infoA.memdb_filename, sdkA)], none⟩ infoA
     (by intro p hp; rw [List.mem_singleton.mp hp]; rfl)⟩

/-- C5: when the remote catalog is unavailable, `get_sync_status` returns
`Ok` with `offline = true`, zero counts, the local revision, and a healthy
status; any other remote error propagates; `sync` itself fails with the
unavailable error. -/
theorem C5_offline_degradation :
    (∀ (cfg : StashConfig) (w : World),
      (MemDbStash.get_sync_status cfg .unavailable w).2 =
        .ok { remote_total := 0, missing := 0, different := 0,
              revision := (w.stateFile.getD default).revision.getD 0,
              offline := true }) ∧
    (∀ st : SyncStatus, st.offline = true → st.is_healthy = true) ∧
    (∀ (cfg : StashConfig) (w : World),
      (MemDbStash.get_sync_status cfg .otherErr w).2 = .error .s3Other) ∧
    (∀ (cfg : StashConfig) (fetch : RemoteSdk → FetchOutcome) (w : World),
      (MemDbStash.sync cfg .unavailable fetch w).2 = .error .s3Unavailable) := by
  refine ⟨fun cfg w => rfl, ?_, fun cfg w => rfl, fun cfg fetch w => rfl⟩
  intro st hoff
  unfold SyncStatus.is_healthy
  rw [hoff]
  exact if_pos rfl

/-- Witness for C5: the offline status produced by a concrete offline check
reports healthy. -/
theorem C5_offline_degradation_witness :
    SyncStatus.is_healthy ⟨0, 0, 0, 5, true⟩ = true :=
  C5_offline_degradation.2.1 ⟨0, 0, 0, 5, true⟩ rfl

/-- A world holding only identity B, whose file on disk has content 7. -/
def wB7 : World :=
  { stateFile := some ⟨[(infoB.memdb_filename, sdkB)], some 5⟩
    cachedState := none
    fs := [(infoB.memdb_filename, 7)]
    memdbs := [] }

/-- Counterexample for C2: during a sync in which B's remote entry changed
(different etag), a failure in the decompress-write step does NOT leave the
previous destination file content untouched — `File::create` has already
truncated the file, and the partial content replaces the previous content 7
with 3 — while the sync aborts and the durable state is untouched. -/
theorem C2_counterexample_partial_overwrite :
    (MemDbStash.sync cfgNone (.ok [sdkB2]) (fun _ => .copyErr 3) wB7).2 =
        .error .io ∧
      assocGet wB7.fs infoB.memdb_filename = some 7 ∧
      assocGet
        (MemDbStash.sync cfgNone (.ok [sdkB2])
          (fun _ => .copyErr 3) wB7).1.fs infoB.memdb_filename = some 3 ∧
      (MemDbStash.sync cfgNone (.ok [sdkB2])
        (fun _ => .copyErr 3) wB7).1.stateFile = wB7.stateFile := by
  decide

/-- C2 (amended): a failure in the download step leaves the world entirely
untouched; a failure in the decompress-write step leaves the durable and
cached state untouched but may clobber the destination file; and `update_sdk`
itself never touches local state — the destination is linked into local state
only by the caller after the copy completes. -/
theorem C2_fetch_failure_amended :
    (∀ (fetch : RemoteSdk → FetchOutcome) (sdk : RemoteSdk) (w : World),
      fetch sdk = .downloadUnavailable →
        MemDbStash.update_sdk fetch sdk w = (w, some .s3Unavailable)) ∧
    (∀ (fetch : RemoteSdk → FetchOutcome) (sdk : RemoteSdk) (w : World),
      fetch sdk = .downloadErr →
        MemDbStash.update_sdk fetch sdk w = (w, some .s3Other)) ∧
    (∀ (fetch : RemoteSdk → FetchOutcome) (sdk : RemoteSdk) (w : World)
      (part : Nat), fetch sdk = .copyErr part →
        (MemDbStash.update_sdk fetch sdk w).2 = some .io) ∧
    (∀ (fetch : RemoteSdk → FetchOutcome) (sdk : RemoteSdk) (w : World),
      (MemDbStash.update_sdk fetch sdk w).1.stateFile = w.stateFile ∧
      (MemDbStash.update_sdk fetch sdk w).1.cachedState = w.cachedState ∧
      (MemDbStash.update_sdk fetch sdk w).1.memdbs = w.memdbs) := by
  refine ⟨?_, ?_, ?_, ?_⟩
  · intro fetch sdk w h
    unfold MemDbStash.update_sdk
    rw [h]
  · intro fetch sdk w h
    unfold MemDbStash.update_sdk
    rw [h]
  · intro fetch sdk w part h
    unfold MemDbStash.update_sdk
    rw [h]
  · intro fetch sdk w
    unfold MemDbStash.update_sdk
    cases fetch sdk <;> exact ⟨rfl, rfl, rfl⟩

/-- Witness for C2 (amended): a concrete download failure leaves a concrete
world untouched. -/
theorem C2_fetch_failure_amended_witness :
    MemDbStash.update_sdk (fun _ => .downloadUnavailable) sdkA wAB =
      (wAB, some .s3Unavailable) :=
  C2_fetch_failure_amended.1 (fun _ => .downloadUnavailable) sdkA wAB rfl

/-- C7: with no cached handle for the identity (the spec's step 2 starts
"otherwise"), `get_memdb` on an identity unknown to the consulted local state
fails with the unknown-identity error, for every filesystem content — the
filesystem is never probed, and the world is changed only by the
snapshot-caching of `get_local_state`; for a known identity it opens the file
and returns a handle onto the file's content. -/
theorem C7_get_memdb_unknown_vs_known :
    ∀ (w : World) (info : SdkInfo), assocGet w.memdbs info = none →
      (((get_local_state w).1.get_sdk info = none →
        MemDbStash.get_memdb info w =
          ((get_local_state w).2, .error .unknownSdk)) ∧
      (∀ d : Nat, (get_local_state w).1.get_sdk info ≠ none →
        assocGet w.fs info.memdb_filename = some d →
        (MemDbStash.get_memdb info w).2 = .ok ⟨d⟩)) := by
  intro w info hcache
  constructor
  · intro h1
    unfold MemDbStash.get_memdb
    rw [hcache]
    dsimp only
    rw [h1]
    rfl
  · intro d h1 h2
    unfold MemDbStash.get_memdb
    rw [hcache]
    dsimp only
    rcases ho : (get_local_state w).1.get_sdk info with _ | v
    · exact absurd ho h1
    dsimp only [Option.isSome]
    rw [if_pos rfl]
    rw [get_local_state_fs, h2]
    dsimp only
    rw [assocGet_insert_self]

/-- Witness for C7: on a concrete world whose state is empty, `get_memdb`
fails with the unknown-identity error. -/
theorem C7_get_memdb_unknown_vs_known_witness :
    MemDbStash.get_memdb infoA ⟨some ⟨[], none⟩, none, [], []⟩ =
      ((get_local_state ⟨some ⟨[], none⟩, none, [], []⟩).2,
        .error .unknownSdk) :=
  (C7_get_memdb_unknown_vs_known ⟨some ⟨[], none⟩, none, [], []⟩ infoA
    (by decide)).1 (by decide)

/-- C4: a completed sync strictly increases the durable revision, an aborted
sync never decreases it, and the read-only stash operations (`get_memdb`,
`get_sync_status`, `fuzzy_match_sdk_id`, `get_revision`, `list_sdks`,
`sdk_count`) never change the durable state file at all; hence along any
sequence of completed sync calls the revision is strictly increasing. -/
theorem C4_monotonic_revision :
    (∀ (cfg : StashConfig) (listing : ListingResult)
      (fetch : RemoteSdk → FetchOutcome) (w w' : World)
      (rep : List (SdkInfo × SdkOutcome)),
      MemDbStash.sync cfg listing fetch w = (w', .ok rep) →
      worldRev w < worldRev w') ∧
    (∀ (cfg : StashConfig) (listing : ListingResult)
      (fetch : RemoteSdk → FetchOutcome) (w w' : World) (e : StashErr),
      MemDbStash.sync cfg listing fetch w = (w', .error e) →
      worldRev w ≤ worldRev w') ∧
    (∀ (info : SdkInfo) (w : World),
      (MemDbStash.get_memdb info w).1.stateFile = w.stateFile) ∧
    (∀ (cfg : StashConfig) (listing : ListingResult) (w : World),
      (MemDbStash.get_sync_status cfg listing w).1.stateFile = w.stateFile) ∧
    (∀ (cfg : StashConfig) (sdk_id : String) (w : World),
      (MemDbStash.fuzzy_match_sdk_id cfg sdk_id w).1.stateFile =
        w.stateFile) ∧
    (∀ w : World, (MemDbStash.get_revision w).2.stateFile = w.stateFile ∧
      (MemDbStash.list_sdks w).2.stateFile = w.stateFile ∧
      (MemDbStash.sdk_count w).2.stateFile = w.stateFile) := by
  refine ⟨?_, ?_, ?_, ?_, ?_, ?_⟩
  · intro cfg listing fetch w w' rep h
    cases listing with
    | unavailable =>
      have := (sync_unavailable_eq cfg fetch w).symm.trans h
      simp at this
    | otherErr =>
      have := (sync_otherErr_eq cfg fetch w).symm.trans h
      simp at this
    | ok entries =>
      obtain ⟨S, hsf, _, hrev, _⟩ := sync_ok_spec cfg entries fetch w w' rep h
      unfold worldRev
      rw [hsf, Option.getD_some, hrev, Option.getD_some]
      omega
  · intro cfg listing fetch w w' e h
    cases listing with
    | unavailable =>
      have heq := (sync_unavailable_eq cfg fetch w).symm.trans h
      simp only [Prod.mk.injEq] at heq
      rw [← heq.1]
      exact le_refl _
    | otherErr =>
      have heq := (sync_otherErr_eq cfg fetch w).symm.trans h
      simp only [Prod.mk.injEq] at heq
      rw [← heq.1]
      exact le_refl _
    | ok entries =>
      rcases hloop : syncLoop cfg fetch (fetch_remote_state entries)
          (((fetch_remote_state entries).sdks.map
            (fun q => q.2.info)).insertionSort
              (fun a b => SdkInfo.le b a = true))
          (w.stateFile.getD default)
          ((w.stateFile.getD default).sdks.map (fun q => q.2.info))
          { w with cachedState := some (w.stateFile.getD default) } [] with
        ⟨⟨ls, td, w2, rep1⟩, oe⟩
      cases oe with
      | none =>
        have hbad := (sync_ok_unfold cfg entries fetch w hloop).symm.trans h
        simp at hbad
      | some e' =>
        have heq := (sync_err_unfold cfg entries fetch w hloop).symm.trans h
        simp only [Prod.mk.injEq] at heq
        rw [← heq.1]
        have hmono := (syncLoop_mono cfg fetch (fetch_remote_state entries)
          _ _ _ _ _ _ _ hloop (le_refl _)).1
        exact hmono
  · intro info w
    unfold MemDbStash.get_memdb
    cases hm : assocGet w.memdbs info with
    | some arc => rfl
    | none =>
      dsimp only
      by_cases hs : ((get_local_state w).1.get_sdk info).isSome = true
      · rw [if_pos hs]
        cases hf : assocGet (get_local_state w).2.fs info.memdb_filename with
        | none => exact get_local_state_stateFile w
        | some d =>
          dsimp only
          cases hg : assocGet
              (assocInsert info ⟨d⟩ (get_local_state w).2.memdbs) info with
          | some arc => exact get_local_state_stateFile w
          | none => exact get_local_state_stateFile w
      · rw [if_neg hs]
        exact get_local_state_stateFile w
  · intro cfg listing w
    cases listing <;> rfl
  · intro cfg sdk_id w
    unfold MemDbStash.fuzzy_match_sdk_id
    cases hq : SdkInfo.from_filename sdk_id with
    | some target => exact get_local_state_stateFile w
    | none => exact get_local_state_stateFile w
  · intro w
    exact ⟨rfl, get_local_state_stateFile w, get_local_state_stateFile w⟩

/-- Witness for C4: a concrete completed sync strictly increases the
revision. -/
theorem C4_monotonic_revision_witness :
    worldRev ⟨none, none, [], []⟩ <
      worldRev (MemDbStash.sync cfgNone (.ok []) fetchOkSize
        ⟨none, none, [], []⟩).1 :=
  C4_monotonic_revision.1 cfgNone (.ok []) fetchOkSize _ _ [] (by decide)

/-- C10: a completed sync's final persisted revision equals the starting
revision (0 when absent) plus the number of "updated" outcomes plus exactly
one final unconditional bump; deletions of local-only identities contribute
no increment. -/
theorem C10_revision_accounting :
    ∀ (cfg : StashConfig) (entries : List RemoteSdk)
      (fetch : RemoteSdk → FetchOutcome) (w w' : World)
      (rep : List (SdkInfo × SdkOutcome)),
      MemDbStash.sync cfg (.ok entries) fetch w = (w', .ok rep) →
      worldRev w' = worldRev w + countUpdated rep + 1 := by
  intro cfg entries fetch w w' rep h
  obtain ⟨S, hsf, _, hrev, _⟩ := sync_ok_spec cfg entries fetch w w' rep h
  unfold worldRev
  rw [hsf, Option.getD_some, hrev, Option.getD_some]

/-- Witness for C10: a concrete sync that freshly fetches one identity and
deletes none ends with revision start + 1 + 1. -/
theorem C10_revision_accounting_witness :
    worldRev (MemDbStash.sync cfgNone (.ok [sdkC]) fetchOkSize
        ⟨none, none, [], []⟩).1 =
      worldRev ⟨none, none, [], []⟩ +
        countUpdated [(infoC, SdkOutcome.updated)] + 1 :=
  C10_revision_accounting cfgNone [sdkC] fetchOkSize _ _ _ (by decide)

theorem countUpdated_map_zero (l : List SdkInfo) (f : SdkInfo → SdkOutcome)
    (hf : ∀ i, f i ≠ .updated) :
    countUpdated (l.map (fun i => (i, f i))) = 0 := by
  induction l with
  | nil => rfl
  | cons i rest ih =>
    unfold countUpdated at ih ⊢
    rw [List.map_cons, List.filter_cons]
    have : decide ((i, f i).2 = SdkOutcome.updated) = false := by
      simp only [decide_eq_false_iff_not]
      exact hf i
    rw [this]
    simp only [Bool.false_eq_true, if_false]
    exact ih

theorem statusFold_counts (cfg : StashConfig) (local_state : SdkSyncState) :
    ∀ (xs : List (String × RemoteSdk)) (acc : Nat × Nat × Nat),
      (∀ p ∈ xs, cfg.sdk_is_ignored p.2.info = false →
        local_state.get_sdk p.2.info = some p.2) →
      xs.foldl (statusStep cfg local_state) acc =
        (acc.1 + xs.countP (fun p => !cfg.sdk_is_ignored p.2.info),
          acc.2.1, acc.2.2) := by
  intro xs
  induction xs with
  | nil => intro acc _; simp
  | cons p rest ih =>
    intro acc hall
    rw [List.foldl_cons, List.countP_cons]
    have hrest : ∀ q ∈ rest, cfg.sdk_is_ignored q.2.info = false →
        local_state.get_sdk q.2.info = some q.2 :=
      fun q hq => hall q (List.mem_cons_of_mem _ hq)
    by_cases hig : cfg.sdk_is_ignored p.2.info = true
    · have hstep : statusStep cfg local_state acc p = acc := by
        unfold statusStep
        rw [if_pos hig]
      rw [hstep, ih acc hrest, hig]
      simp
    · have hig' : cfg.sdk_is_ignored p.2.info = false :=
        Bool.not_eq_true _ |>.mp hig
      have hget := hall p (List.mem_cons_self _ _) hig'
      have hstep : statusStep cfg local_state acc p =
          (acc.1 + 1, acc.2.1, acc.2.2) := by
        unfold statusStep
        rw [if_neg (by rw [hig']; exact Bool.false_ne_true), hget]
        dsimp only
        rw [if_neg (not_not_intro rfl)]
      rw [hstep, ih _ hrest, hig']
      simp only [Bool.not_false, if_pos, Prod.mk.injEq, and_true, true_and]
      ring

theorem is_healthy_no_lag (st : SyncStatus) (hoff : st.offline = false)
    (ht : st.remote_total ≠ 0) (hm : st.missing = 0) (hd : st.different = 0) :
    st.is_healthy = true := by
  unfold SyncStatus.is_healthy
  rw [hoff, if_neg (by exact Bool.false_ne_true), if_neg ht]
  rw [decide_eq_true_eq]
  unfold SyncStatus.lag
  rw [hm, hd]
  rw [div_eq_mul_inv]
  simp only [Nat.add_zero, Nat.cast_zero, zero_mul]
  norm_num

theorem mem_keys_foldl_insert (entries : List RemoteSdk) (k : String) :
    ∀ m : List (String × RemoteSdk),
      ((∃ x ∈ entries, x.info.memdb_filename = k) ∨
        k ∈ m.map (fun p => p.1)) →
      k ∈ (entries.foldl
        (fun m' sdk => assocInsert sdk.info.memdb_filename sdk m') m).map
          (fun p => p.1) := by
  induction entries with
  | nil =>
    intro m h
    rcases h with ⟨x, hx, _⟩ | h
    · simp at hx
    · exact h
  | cons e rest ih =>
    intro m h
    rw [List.foldl_cons]
    apply ih
    have hins : ∀ k', k' ∈ m.map (fun p => p.1) ∨ k' = e.info.memdb_filename →
        k' ∈ (assocInsert e.info.memdb_filename e m).map (fun p => p.1) := by
      intro k' hk'
      unfold assocInsert
      rw [List.map_cons]
      rcases hk' with hk' | hk'
      · by_cases he : k' = e.info.memdb_filename
        · rw [he]; exact List.mem_cons_self _ _
        · apply List.mem_cons_of_mem
          rcases List.mem_map.mp hk' with ⟨p, hp, hpk⟩
          exact List.mem_map.mpr ⟨p, List.mem_filter.mpr ⟨hp, by
            simp only [decide_eq_true_eq]
            rw [hpk]
            exact fun hc => he (hpk ▸ hc)⟩, hpk⟩
      · rw [hk']; exact List.mem_cons_self _ _
    rcases h with ⟨x, hx, hxk⟩ | h
    · rcases List.mem_cons.mp hx with hx | hx
      · subst hx
        exact Or.inr (hins k (Or.inr hxk.symm))
      · exact Or.inl ⟨x, hx, hxk⟩
    · exact Or.inr (hins k (Or.inl h))

theorem fetch_remote_get_of_entry (entries : List RemoteSdk)
    {sdk : RemoteSdk} (hmem : sdk ∈ entries) :
    ∃ v, (fetch_remote_state entries).get_sdk sdk.info = some v ∧
      v.info = sdk.info := by
  have hk : sdk.info.memdb_filename ∈
      (fetch_remote_state entries).sdks.map (fun p => p.1) :=
    mem_keys_foldl_insert entries _ [] (Or.inl ⟨sdk, hmem, rfl⟩)
  have hsome := (assocGet_isSome_iff_mem_keys
    (fetch_remote_state entries).sdks sdk.info.memdb_filename).mpr hk
  rcases ho : assocGet (fetch_remote_state entries).sdks
      sdk.info.memdb_filename with _ | v
  · rw [ho] at hsome; simp at hsome
  · refine ⟨v, ho, ?_⟩
    have hmemv := mem_of_assocGet_eq_some _ _ _ ho
    have hkey := fetch_remote_state_keyInv entries _ hmemv
    exact (SdkInfo.memdb_filename_injective hkey.symm)

theorem foldl_insert_fresh_append (l : List RemoteSdk) :
    ∀ (m : List (String × RemoteSdk)) (k : String) (v : RemoteSdk),
      k ∉ l.map (fun x => x.info.memdb_filename) →
      l.foldl (fun m' sdk => assocInsert sdk.info.memdb_filename sdk m')
          (m ++ [(k, v)]) =
        l.foldl (fun m' sdk => assocInsert sdk.info.memdb_filename sdk m')
          m ++ [(k, v)] := by
  induction l with
  | nil => intro m k v _; rfl
  | cons e rest ih =>
    intro m k v hfresh
    rw [List.map_cons, List.mem_cons] at hfresh
    push_neg at hfresh
    rw [List.foldl_cons, List.foldl_cons]
    have hstep : assocInsert e.info.memdb_filename e (m ++ [(k, v)]) =
        assocInsert e.info.memdb_filename e m ++ [(k, v)] := by
      unfold assocInsert
      rw [List.filter_append]
      have : List.filter (fun p => decide (p.1 ≠ e.info.memdb_filename))
          [(k, v)] = [(k, v)] := by
        rw [List.filter_cons]
        simp only [decide_eq_true_eq]
        rw [if_pos (fun hc => hfresh.1 hc)]
        rfl
      rw [this]
      rfl
    rw [hstep]
    exact ih _ _ _ hfresh.2

theorem fetch_remote_cons_fresh (sdk : RemoteSdk) (l : List RemoteSdk)
    (hfresh : sdk.info.memdb_filename ∉
      l.map (fun x => x.info.memdb_filename)) :
    (fetch_remote_state (sdk :: l)).sdks =
      (fetch_remote_state l).sdks ++ [(sdk.info.memdb_filename, sdk)] := by
  unfold fetch_remote_state
  dsimp only
  rw [List.foldl_cons]
  have h0 : assocInsert sdk.info.memdb_filename sdk
      ([] : List (String × RemoteSdk)) =
      [] ++ [(sdk.info.memdb_filename, sdk)] := rfl
  rw [h0]
  exact foldl_insert_fresh_append l [] _ sdk hfresh

/-- C1: evaluating `sync` on local state {A, B} against remote catalog
{B, C} (none ignored).  The durable state correctly becomes {B, C} with C's
file created and B's file, entry and handle untouched — but A's database
file is still on disk and A's cached handle is still present afterwards,
because the stale-identity pass removes the entry from the working state
before consulting it, so its file-deletion/handle-eviction branch never
runs.  This contradicts the claimed deletion of A's file and eviction of its
handle. -/
theorem C1_delete_pass_never_touches_disk :
    (MemDbStash.sync cfgNone (.ok [sdkB, sdkC]) fetchOkSize wAB).2 =
        .ok [(infoC, .updated), (infoB, .unchanged)] ∧
      (MemDbStash.sync cfgNone (.ok [sdkB, sdkC]) fetchOkSize
          wAB).1.stateFile =
        some ⟨[(infoC.memdb_filename, sdkC), (infoB.memdb_filename, sdkB)],
          some 7⟩ ∧
      assocGet (MemDbStash.sync cfgNone (.ok [sdkB, sdkC]) fetchOkSize
        wAB).1.fs infoA.memdb_filename = some 10 ∧
      assocGet (MemDbStash.sync cfgNone (.ok [sdkB, sdkC]) fetchOkSize
        wAB).1.memdbs infoA = some ⟨10⟩ ∧
      assocGet (MemDbStash.sync cfgNone (.ok [sdkB, sdkC]) fetchOkSize
        wAB).1.fs infoB.memdb_filename = some 11 ∧
      assocGet (MemDbStash.sync cfgNone (.ok [sdkB, sdkC]) fetchOkSize
        wAB).1.memdbs infoB = some ⟨11⟩ ∧
      assocGet (MemDbStash.sync cfgNone (.ok [sdkB, sdkC]) fetchOkSize
        wAB).1.fs infoC.memdb_filename = some 301 := by
  decide

/-- A world whose durable state holds only identity A (which the
configuration ignores), with A's file on disk. -/
def wA : World :=
  { stateFile := some ⟨[(infoA.memdb_filename, sdkA)], some 5⟩
    cachedState := none
    fs := [(infoA.memdb_filename, 10)]
    memdbs := [] }

/-- Counterexample for C6: identity A matches the ignore pattern, is present
in local state, and is absent from the remote catalog; sync nevertheless
removes it from the durable local state, because `to_delete` is seeded with
every local identity and the loop over remote identities never visits A to
clear it. -/
theorem C6_counterexample_ignored_deleted :
    cfgIgnoreA.sdk_is_ignored infoA = true ∧
      (MemDbStash.sync cfgIgnoreA (.ok []) fetchOkSize wA).2 = .ok [] ∧
      (wA.stateFile.getD default).get_sdk infoA = some sdkA ∧
      ((MemDbStash.sync cfgIgnoreA (.ok []) fetchOkSize
        wA).1.stateFile.getD default).get_sdk infoA = none := by
  decide

/-- C6 (amended): (1) the sync outcome does not depend on the fetch oracle's
behaviour on ignored identities — an ignored identity is never fetched;
(2) a completed sync never writes the database file of an ignored identity;
(3) an ignored identity that is present in the remote catalog keeps its local
state entry unchanged (it is not deleted and not updated, because the loop
still clears it from `to_delete`); and (4) a remote entry for an ignored
identity (under a fresh filename) contributes nothing to `remote_total`,
`missing` or `different` in `get_sync_status`.  An ignored identity that is
present locally but absent remotely IS deleted from local state, so the
original claim's "never deleted for being absent remotely" holds only for
remotely-present identities. -/
theorem C6_ignored_identities_amended :
    (∀ (cfg : StashConfig) (entries : List RemoteSdk)
      (f1 f2 : RemoteSdk → FetchOutcome) (w : World),
      (∀ sdk : RemoteSdk, cfg.sdk_is_ignored sdk.info = false →
        f1 sdk = f2 sdk) →
      MemDbStash.sync cfg (.ok entries) f1 w =
        MemDbStash.sync cfg (.ok entries) f2 w) ∧
    (∀ (cfg : StashConfig) (entries : List RemoteSdk)
      (fetch : RemoteSdk → FetchOutcome) (w w' : World)
      (rep : List (SdkInfo × SdkOutcome)),
      MemDbStash.sync cfg (.ok entries) fetch w = (w', .ok rep) →
      ∀ j : SdkInfo, cfg.sdk_is_ignored j = true →
        assocGet w'.fs j.memdb_filename = assocGet w.fs j.memdb_filename) ∧
    (∀ (cfg : StashConfig) (entries : List RemoteSdk)
      (fetch : RemoteSdk → FetchOutcome) (w w' : World)
      (rep : List (SdkInfo × SdkOutcome)),
      MemDbStash.sync cfg (.ok entries) fetch w = (w', .ok rep) →
      ∀ j ∈ (fetch_remote_state entries).sdks.map (fun q => q.2.info),
        cfg.sdk_is_ignored j = true →
        (w'.stateFile.getD default).get_sdk j =
          (w.stateFile.getD default).get_sdk j) ∧
    (∀ (cfg : StashConfig) (sdk : RemoteSdk) (entries : List RemoteSdk)
      (w : World), cfg.sdk_is_ignored sdk.info = true →
      sdk.info.memdb_filename ∉
        entries.map (fun x => x.info.memdb_filename) →
      MemDbStash.get_sync_status cfg (.ok (sdk :: entries)) w =
        MemDbStash.get_sync_status cfg (.ok entries) w) := by
  refine ⟨?_, ?_, ?_, ?_⟩
  · intro cfg entries f1 f2 w hf
    unfold MemDbStash.sync
    dsimp only [read_local_state]
    have hperm := List.perm_insertionSort (fun a b => SdkInfo.le b a = true)
      ((fetch_remote_state entries).sdks.map (fun q => q.2.info))
    rw [syncLoop_oracle cfg f1 f2 (fetch_remote_state entries) hf _ _ _ _ _
      (fun i hi => mem_infos_get_sdk entries (hperm.mem_iff.mp hi))]
  · intro cfg entries fetch w w' rep h j hj
    exact (sync_ok_spec cfg entries fetch w w' rep h).choose_spec.2.2.2.2.2 j hj
  · intro cfg entries fetch w w' rep h j hj hjg
    obtain ⟨S, hsf, _, _, hc, _, _⟩ := sync_ok_spec cfg entries fetch w w' rep h
    rw [hsf, Option.getD_some, hc j hj, if_pos hjg]
  · intro cfg sdk entries w hig hfresh
    unfold MemDbStash.get_sync_status
    dsimp only [read_local_state]
    rw [fetch_remote_cons_fresh sdk entries hfresh, List.foldl_append,
      List.foldl_cons, List.foldl_nil]
    have hstep : ∀ acc : Nat × Nat × Nat,
        statusStep cfg (w.stateFile.getD default) acc
          (sdk.info.memdb_filename, sdk) = acc := by
      intro acc
      unfold statusStep
      exact if_pos hig
    rw [hstep]

/-- Witness for C6 (amended): a concrete remote entry for the ignored
identity A leaves the concrete sync-status counts unchanged. -/
theorem C6_ignored_identities_amended_witness :
    MemDbStash.get_sync_status cfgIgnoreA (.ok [sdkA, sdkB]) wAB =
      MemDbStash.get_sync_status cfgIgnoreA (.ok [sdkB]) wAB :=
  C6_ignored_identities_amended.2.2.2 cfgIgnoreA sdkA [sdkB] wAB (by decide)
    (by decide)

/-- Counterexample for C3: against an empty (but available) remote catalog,
two successive syncs complete with no per-identity outcomes, yet the status
afterwards is NOT healthy: `remote_total` is 0, and the source's f32 ratio
`lag/total` is `0.0/0.0 = NaN`, which compares false against `0.10`. -/
theorem C3_counterexample_empty_catalog :
    (MemDbStash.sync cfgNone (.ok []) fetchOkSize ⟨none, none, [], []⟩).2 =
        .ok [] ∧
      (MemDbStash.sync cfgNone (.ok []) fetchOkSize
        (MemDbStash.sync cfgNone (.ok []) fetchOkSize
          ⟨none, none, [], []⟩).1).2 = .ok [] ∧
      (MemDbStash.get_sync_status cfgNone (.ok [])
        (MemDbStash.sync cfgNone (.ok []) fetchOkSize
          (MemDbStash.sync cfgNone (.ok []) fetchOkSize
            ⟨none, none, [], []⟩).1).1).2 = .ok ⟨0, 0, 0, 2, false⟩ ∧
      SyncStatus.is_healthy ⟨0, 0, 0, 2, false⟩ = false := by
  decide

/-- C3 (amended): after any completed sync against a remote catalog holding
at least one non-ignored entry, a second sync against the same catalog
completes (with any fetch oracle, since nothing is fetched), reports zero
"updated" outcomes, increments the revision exactly once (the final
unconditional bump), and the subsequent sync status is healthy.  The
non-ignored-entry hypothesis is forced by the counterexample: with
`remote_total = 0` the health ratio is NaN and `is_healthy` is false. -/
theorem C3_idempotence_amended :
    ∀ (cfg : StashConfig) (entries : List RemoteSdk)
      (fetch fetch2 : RemoteSdk → FetchOutcome) (w w1 : World)
      (rep1 : List (SdkInfo × SdkOutcome)),
      MemDbStash.sync cfg (.ok entries) fetch w = (w1, .ok rep1) →
      (∃ sdk ∈ entries, cfg.sdk_is_ignored sdk.info = false) →
      ∃ (w2 : World) (rep2 : List (SdkInfo × SdkOutcome)) (st : SyncStatus),
        MemDbStash.sync cfg (.ok entries) fetch2 w1 = (w2, .ok rep2) ∧
        countUpdated rep2 = 0 ∧
        worldRev w2 = worldRev w1 + 1 ∧
        (MemDbStash.get_sync_status cfg (.ok entries) w2).2 = .ok st ∧
        st.is_healthy = true := by
  intro cfg entries fetch fetch2 w w1 rep1 h hne
  obtain ⟨S, hsf, hcs, hrev, hc, hd, hfsx⟩ :=
    sync_ok_spec cfg entries fetch w w1 rep1 h
  have hS : w1.stateFile.getD default = S := by rw [hsf]; rfl
  have hperm := List.perm_insertionSort (fun a b => SdkInfo.le b a = true)
    ((fetch_remote_state entries).sdks.map (fun q => q.2.info))
  have hrem : ∀ i ∈ ((fetch_remote_state entries).sdks.map
      (fun q => q.2.info)).insertionSort (fun a b => SdkInfo.le b a = true),
      ∃ sdk, (fetch_remote_state entries).get_sdk i = some sdk ∧
        sdk.info = i :=
    fun i hi => mem_infos_get_sdk entries (hperm.mem_iff.mp hi)
  have hagree : ∀ i ∈ ((fetch_remote_state entries).sdks.map
      (fun q => q.2.info)).insertionSort (fun a b => SdkInfo.le b a = true),
      cfg.sdk_is_ignored i = false →
      (w1.stateFile.getD default).get_sdk i =
        (fetch_remote_state entries).get_sdk i := by
    intro i hi hig
    rw [hS, hc i (hperm.mem_iff.mp hi),
      if_neg (by rw [hig]; exact Bool.false_ne_true)]
  have hloop2 := syncLoop_nochange cfg fetch2 (fetch_remote_state entries)
    (((fetch_remote_state entries).sdks.map
      (fun q => q.2.info)).insertionSort (fun a b => SdkInfo.le b a = true))
    (w1.stateFile.getD default)
    ((w1.stateFile.getD default).sdks.map (fun q => q.2.info))
    { w1 with cachedState := some (w1.stateFile.getD default) } []
    hrem hagree
  have hsync2 := sync_ok_unfold cfg entries fetch2 w1 hloop2
  have hsync2' : MemDbStash.sync cfg (.ok entries) fetch2 w1 =
      ((MemDbStash.sync cfg (.ok entries) fetch2 w1).1,
        .ok ([] ++ (((fetch_remote_state entries).sdks.map
          (fun q => q.2.info)).insertionSort
            (fun a b => SdkInfo.le b a = true)).map
          (fun i => (i, if cfg.sdk_is_ignored i then SdkOutcome.ignored
            else SdkOutcome.unchanged)))) := by
    rw [hsync2]
  have hcu2 : countUpdated ([] ++ (((fetch_remote_state entries).sdks.map
      (fun q => q.2.info)).insertionSort
        (fun a b => SdkInfo.le b a = true)).map
      (fun i => (i, if cfg.sdk_is_ignored i then SdkOutcome.ignored
        else SdkOutcome.unchanged))) = 0 := by
    rw [List.nil_append]
    apply countUpdated_map_zero
    intro i
    by_cases hg : cfg.sdk_is_ignored i = true
    · rw [if_pos hg]
      intro hcon
      cases hcon
    · rw [if_neg hg]
      intro hcon
      cases hcon
  obtain ⟨S₂, hsf₂, hcs₂, hrev₂, hc₂, hd₂, hfs₂⟩ :=
    sync_ok_spec cfg entries fetch2 w1 _ _ hsync2'
  have hw2S : ((MemDbStash.sync cfg (.ok entries) fetch2
      w1).1.stateFile.getD default) = S₂ := by
    rw [hsf₂]
    rfl
  have hall : ∀ p ∈ (fetch_remote_state entries).sdks,
      cfg.sdk_is_ignored p.2.info = false →
      ((MemDbStash.sync cfg (.ok entries) fetch2
        w1).1.stateFile.getD default).get_sdk p.2.info = some p.2 := by
    intro p hp hig
    rw [hw2S, hc₂ p.2.info (List.mem_map.mpr ⟨p, hp, rfl⟩),
      if_neg (by rw [hig]; exact Bool.false_ne_true)]
    exact fetch_remote_state_get_value entries hp
  have hcounts := statusFold_counts cfg
    ((MemDbStash.sync cfg (.ok entries) fetch2 w1).1.stateFile.getD default)
    (fetch_remote_state entries).sdks (0, 0, 0) hall
  have hpos : 0 < (fetch_remote_state entries).sdks.countP
      (fun p => !cfg.sdk_is_ignored p.2.info) := by
    obtain ⟨sdk, hmem, hig⟩ := hne
    obtain ⟨v, hv, hvi⟩ := fetch_remote_get_of_entry entries hmem
    refine List.countP_pos_iff.mpr ⟨(sdk.info.memdb_filename, v), ?_, ?_⟩
    · exact mem_of_assocGet_eq_some _ _ _ hv
    · dsimp only
      rw [hvi, hig]
      rfl
  have hstatus : (MemDbStash.get_sync_status cfg (.ok entries)
      (MemDbStash.sync cfg (.ok entries) fetch2 w1).1).2 =
      .ok ⟨0 + (fetch_remote_state entries).sdks.countP
          (fun p => !cfg.sdk_is_ignored p.2.info), 0, 0,
        ((MemDbStash.sync cfg (.ok entries) fetch2
          w1).1.stateFile.getD default).revision.getD 0, false⟩ := by
    unfold MemDbStash.get_sync_status
    dsimp only [read_local_state]
    rw [hcounts]
  refine ⟨(MemDbStash.sync cfg (.ok entries) fetch2 w1).1, _, _,
    hsync2', hcu2, ?_, hstatus, ?_⟩
  · unfold worldRev
    rw [hw2S, hrev₂, hcu2, Option.getD_some, hS]
  · apply is_healthy_no_lag
    · rfl
    · dsimp only
      omega
    · rfl
    · rfl

/-- Witness for C3 (amended): two concrete syncs against a one-entry catalog;
the second changes nothing, bumps the revision once, and the status is
healthy. -/
theorem C3_idempotence_amended_witness :
    ∃ (w2 : World) (rep2 : List (SdkInfo × SdkOutcome)) (st : SyncStatus),
      MemDbStash.sync cfgNone (.ok [sdkC]) fetchOkSize
        (MemDbStash.sync cfgNone (.ok [sdkC]) fetchOkSize
          ⟨none, none, [], []⟩).1 = (w2, .ok rep2) ∧
      countUpdated rep2 = 0 ∧
      worldRev w2 = worldRev (MemDbStash.sync cfgNone (.ok [sdkC])
        fetchOkSize ⟨none, none, [], []⟩).1 + 1 ∧
      (MemDbStash.get_sync_status cfgNone (.ok [sdkC]) w2).2 = .ok st ∧
      st.is_healthy = true :=
  C3_idempotence_amended cfgNone [sdkC] fetchOkSize fetchOkSize
    ⟨none, none, [], []⟩
    (MemDbStash.sync cfgNone (.ok [sdkC]) fetchOkSize
      ⟨none, none, [], []⟩).1
    [(infoC, SdkOutcome.updated)] (by decide) (by decide)

theorem get_local_state_idem (w : World) :
    get_local_state (get_local_state w).2 =
      ((get_local_state w).1, (get_local_state w).2) := by
  cases hc : w.cachedState with
  | some s =>
    have h1 : get_local_state w = (s, w) := by
      unfold get_local_state
      rw [hc]
    rw [h1]
    dsimp only
    exact h1
  | none =>
    have h1 : get_local_state w = (w.stateFile.getD default,
        { w with cachedState := some (w.stateFile.getD default) }) := by
      unfold get_local_state read_local_state
      rw [hc]
    rw [h1]
    dsimp only
    unfold get_local_state
    rfl

theorem fuzzySortKeyLe_iff (t : SdkInfo) (a b : Nat × SdkInfo) :
    fuzzySortKeyLe t a b = true ↔
      a.1 < b.1 ∨ (a.1 = b.1 ∧
        ((SdkInfo.lt t a.2 = false ∧ SdkInfo.lt t b.2 = true) ∨
          (SdkInfo.lt t a.2 = SdkInfo.lt t b.2 ∧
            SdkInfo.le b.2 a.2 = true))) := by
  unfold fuzzySortKeyLe
  cases hga : SdkInfo.lt t a.2 <;> cases hgb : SdkInfo.lt t b.2 <;>
    simp [hga, hgb]

theorem fuzzySortKeyLe_total (t : SdkInfo) (a b : Nat × SdkInfo) :
    fuzzySortKeyLe t a b = true ∨ fuzzySortKeyLe t b a = true := by
  rw [fuzzySortKeyLe_iff, fuzzySortKeyLe_iff]
  rcases Nat.lt_trichotomy a.1 b.1 with h | h | h
  · exact Or.inl (Or.inl h)
  · cases hga : SdkInfo.lt t a.2 <;> cases hgb : SdkInfo.lt t b.2
    · rcases SdkInfo.le_total a.2 b.2 with hle | hle
      · exact Or.inr (Or.inr ⟨h.symm, Or.inr ⟨rfl, hle⟩⟩)
      · exact Or.inl (Or.inr ⟨h, Or.inr ⟨rfl, hle⟩⟩)
    · exact Or.inl (Or.inr ⟨h, Or.inl ⟨rfl, rfl⟩⟩)
    · exact Or.inr (Or.inr ⟨h.symm, Or.inl ⟨rfl, rfl⟩⟩)
    · rcases SdkInfo.le_total a.2 b.2 with hle | hle
      · exact Or.inr (Or.inr ⟨h.symm, Or.inr ⟨rfl, hle⟩⟩)
      · exact Or.inl (Or.inr ⟨h, Or.inr ⟨rfl, hle⟩⟩)
  · exact Or.inr (Or.inl h)

theorem fuzzySortKeyLe_trans (t : SdkInfo) (a b c : Nat × SdkInfo)
    (hab : fuzzySortKeyLe t a b = true) (hbc : fuzzySortKeyLe t b c = true) :
    fuzzySortKeyLe t a c = true := by
  rw [fuzzySortKeyLe_iff] at hab hbc ⊢
  rcases hab with h | ⟨hq, hr⟩
  · rcases hbc with h' | ⟨hq', _⟩
    · exact Or.inl (by omega)
    · exact Or.inl (by omega)
  · rcases hbc with h' | ⟨hq', hr'⟩
    · exact Or.inl (by omega)
    · refine Or.inr ⟨by omega, ?_⟩
      rcases hr with ⟨h1, h2⟩ | ⟨h1, h2⟩ <;>
        rcases hr' with ⟨h1', h2'⟩ | ⟨h1', h2'⟩
      · rw [h2] at h1'
        exact Bool.noConfusion h1'
      · exact Or.inl ⟨h1, by rw [h1'] at h2; exact h2⟩
      · exact Or.inl ⟨by rw [h1]; exact h1', h2'⟩
      · exact Or.inr ⟨h1.trans h1', SdkInfo.le_trans h2' h2⟩

theorem fuzzySortKeyLe_antisymm (t : SdkInfo) (a b : Nat × SdkInfo)
    (hab : fuzzySortKeyLe t a b = true) (hba : fuzzySortKeyLe t b a = true) :
    a = b := by
  obtain ⟨a1, a2⟩ := a
  obtain ⟨b1, b2⟩ := b
  rw [fuzzySortKeyLe_iff] at hab hba
  dsimp only at hab hba
  rcases hab with h | ⟨hq, hr⟩
  · rcases hba with h' | ⟨hq', _⟩
    · omega
    · omega
  · rcases hba with h' | ⟨hq', hr'⟩
    · omega
    · rcases hr with ⟨h1, h2⟩ | ⟨h1, h2⟩ <;>
        rcases hr' with ⟨h1', h2'⟩ | ⟨h1', h2'⟩
      · rw [h2] at h1'
        exact Bool.noConfusion h1'
      · rw [h1'] at h2
        rw [h2] at h1
        exact Bool.noConfusion h1
      · rw [← h1] at h1'
        rw [h2'] at h1'
        exact Bool.noConfusion h1'
      · rw [hq, SdkInfo.le_antisymm h2' h2]

/-- C8: fuzzy matching is deterministic and shaped as specified: a repeated
call returns the same result; an unparsable identifier yields an empty `Ok`
result rather than an error; a parsable identifier yields at most 10 known
identities, sorted ascending by the key (sentinel-normalized score,
candidate-greater-than-target, reverse identity order); and the result does
not depend on the enumeration order of the local state's map. -/
theorem C8_fuzzy_match_shape :
    (∀ (cfg : StashConfig) (sdk_id : String) (w : World),
      (MemDbStash.fuzzy_match_sdk_id cfg sdk_id
        (MemDbStash.fuzzy_match_sdk_id cfg sdk_id w).1).2 =
        (MemDbStash.fuzzy_match_sdk_id cfg sdk_id w).2) ∧
    (∀ (cfg : StashConfig) (sdk_id : String) (w : World),
      SdkInfo.from_filename sdk_id = none →
      (MemDbStash.fuzzy_match_sdk_id cfg sdk_id w).2 = .ok []) ∧
    (∀ (cfg : StashConfig) (sdk_id : String) (w : World) (target : SdkInfo),
      SdkInfo.from_filename sdk_id = some target →
      ∃ l, (MemDbStash.fuzzy_match_sdk_id cfg sdk_id w).2 = .ok l ∧
        l.length ≤ 10 ∧
        (∀ x ∈ l, x ∈ (get_local_state w).1.sdks.map (fun q => q.2.info)) ∧
        l.Pairwise (fun a b =>
          fuzzySortKeyLe target (fuzzyScored cfg target a)
            (fuzzyScored cfg target b) = true)) ∧
    (∀ (cfg : StashConfig) (sdk_id : String) (w1 w2 : World),
      ((get_local_state w1).1.sdks).Perm ((get_local_state w2).1.sdks) →
      (MemDbStash.fuzzy_match_sdk_id cfg sdk_id w1).2 =
        (MemDbStash.fuzzy_match_sdk_id cfg sdk_id w2).2) := by
  refine ⟨?_, ?_, ?_, ?_⟩
  · intro cfg sdk_id w
    have hw1 : (MemDbStash.fuzzy_match_sdk_id cfg sdk_id w).1 =
        (get_local_state w).2 := by
      unfold MemDbStash.fuzzy_match_sdk_id
      cases SdkInfo.from_filename sdk_id <;> rfl
    rw [hw1]
    unfold MemDbStash.fuzzy_match_sdk_id
    rw [get_local_state_idem]
  · intro cfg sdk_id w hp
    unfold MemDbStash.fuzzy_match_sdk_id
    rw [hp]
  · intro cfg sdk_id w target hp
    unfold MemDbStash.fuzzy_match_sdk_id
    rw [hp]
    dsimp only
    refine ⟨_, rfl, ?_, ?_, ?_⟩
    · rw [List.length_map]
      exact List.length_take_le _ _
    · intro x hx
      rcases List.mem_map.mp hx with ⟨p, hpmem, hpx⟩
      have hp2 := List.mem_of_mem_take hpmem
      have hp3 := (List.perm_insertionSort
        (fun a b => fuzzySortKeyLe target a b = true)
        ((get_local_state w).1.sdks.map
          (fun q => fuzzyScored cfg target q.2.info))).mem_iff.mp hp2
      rcases List.mem_map.mp hp3 with ⟨q, hq, hqp⟩
      rw [← hpx, ← hqp]
      exact List.mem_map.mpr ⟨q, hq, rfl⟩
    · haveI : IsTotal (Nat × SdkInfo)
          (fun a b => fuzzySortKeyLe target a b = true) :=
        ⟨fuzzySortKeyLe_total target⟩
      haveI : IsTrans (Nat × SdkInfo)
          (fun a b => fuzzySortKeyLe target a b = true) :=
        ⟨fuzzySortKeyLe_trans target⟩
      have hsorted := List.sorted_insertionSort
        (fun a b : Nat × SdkInfo => fuzzySortKeyLe target a b = true)
        ((get_local_state w).1.sdks.map
          (fun q => fuzzyScored cfg target q.2.info))
      have htk := List.Pairwise.sublist (List.take_sublist 10 _) hsorted
      rw [List.pairwise_map]
      refine List.Pairwise.imp_of_mem ?_ htk
      intro a b ha hb hab
      have hsh : ∀ x, x ∈ (((get_local_state w).1.sdks.map
          (fun q => fuzzyScored cfg target q.2.info)).insertionSort
            (fun a b => fuzzySortKeyLe target a b = true)).take 10 →
          x = fuzzyScored cfg target x.2 := by
        intro x hx
        have hx2 := List.mem_of_mem_take hx
        have hx3 := (List.perm_insertionSort
          (fun a b => fuzzySortKeyLe target a b = true)
          ((get_local_state w).1.sdks.map
            (fun q => fuzzyScored cfg target q.2.info))).mem_iff.mp hx2
        rcases List.mem_map.mp hx3 with ⟨q, _, hqx⟩
        rw [← hqx]
        rfl
      rw [← hsh a ha, ← hsh b hb]
      exact hab
  · intro cfg sdk_id w1 w2 hp
    unfold MemDbStash.fuzzy_match_sdk_id
    cases hq : SdkInfo.from_filename sdk_id with
    | none => rfl
    | some target =>
      dsimp only
      haveI : IsTotal (Nat × SdkInfo)
          (fun a b => fuzzySortKeyLe target a b = true) :=
        ⟨fuzzySortKeyLe_total target⟩
      haveI : IsTrans (Nat × SdkInfo)
          (fun a b => fuzzySortKeyLe target a b = true) :=
        ⟨fuzzySortKeyLe_trans target⟩
      have hpm := hp.map (fun q => fuzzyScored cfg target q.2.info)
      have hps := (List.perm_insertionSort
        (fun a b => fuzzySortKeyLe target a b = true)
        ((get_local_state w1).1.sdks.map
          (fun q => fuzzyScored cfg target q.2.info))).trans
        (hpm.trans (List.perm_insertionSort
          (fun a b => fuzzySortKeyLe target a b = true)
          ((get_local_state w2).1.sdks.map
            (fun q => fuzzyScored cfg target q.2.info))).symm)
      have heq := List.Perm.eq_of_sorted
        (fun a b _ _ hab hba => fuzzySortKeyLe_antisymm target a b hab hba)
        (List.sorted_insertionSort _ _) (List.sorted_insertionSort _ _) hps
      rw [heq]

/-- Witness for C8: a concrete unparsable identifier yields an empty result
on a concrete world. -/
theorem C8_fuzzy_match_shape_witness :
    (MemDbStash.fuzzy_match_sdk_id cfgNone "q" wAB).2 = .ok [] :=
  C8_fuzzy_match_shape.2.1 cfgNone "q" wAB (by decide)
